import Mathlib

set_option maxHeartbeats 1000000

/-!
Shallow embedding of the diagram-to-print-SVG normalizer of
`src/utils/mermaid_renderer.py` (class `MermaidRenderer`), the subsystem the
specification calls the "normalizer": `_process_svg_for_pdf` and its helpers.

Modelling conventions:
* The DOM tree produced by `BeautifulSoup(..., 'lxml')` is modelled by `Node`
  (element with tag, ordered attribute list, ordered children; or a text node).
  `lxml` lower-cases tag names, so all tags here are lower-case
  (`foreignobject`, `svg`, ...).
* Attribute values are strings in the parsed input; values written by the code
  via `str(...)` of a Python `int` or `float` are modelled by the `AttrVal.int`
  and `AttrVal.rat` constructors, keeping the numeric value exact instead of
  reproducing Python's decimal rendering.  Python `float` arithmetic is
  modelled by exact rationals (`ℚ`): every claim below is about which formula
  the code applies, not about IEEE rounding.
* BeautifulSoup stores a `class` attribute as the list of its space-separated
  tokens; the source joins such lists back with `' '.join(...)` before every
  use, so the `class` attribute is modelled as the raw string.
* A Python function that can raise inside a `try`-block that returns `None`
  (`_convert_foreign_object_to_text_for_class`,
  `_convert_foreign_object_to_text_simple`) is modelled as `Option Node`,
  `none` covering both "returned None" and "an exception was caught".
  `_get_parent_transform`, which has no handler of its own, is modelled as
  `Option (ℚ × ℚ)` with `none` meaning "raised `ValueError`".
* Python `str.split` / `str.strip` / `str.lower` / `in` (substring) / decimal
  rendering are re-implemented on `List Char` so that everything reduces in the
  kernel; `float(...)` parsing is modelled for optionally signed decimal
  literals (the only shapes the claims exercise).
-/

/-! ### Python string primitives -/

/-- Python `str.strip()` on a character list. -/
def pyStripL (l : List Char) : List Char :=
  ((l.dropWhile Char.isWhitespace).reverse.dropWhile Char.isWhitespace).reverse

/-- Python `str.strip()`. -/
def pyStrip (s : String) : String := ⟨pyStripL s.data⟩

/-- `pfxL p l`: does `l` start with `p`?  (Python `str.startswith`.) -/
def pfxL : List Char → List Char → Bool
  | [], _ => true
  | _ :: _, [] => false
  | a :: as, b :: bs => a = b && pfxL as bs

/-- `subL p l`: does `p` occur as a contiguous substring of `l`?
(Python `p in l`.) -/
def subL (pat : List Char) : List Char → Bool
  | [] => pat.isEmpty
  | c :: rest => pfxL pat (c :: rest) || subL pat rest

/-- Python substring test `pat in s`. -/
def strIn (pat s : String) : Bool := subL pat.data s.data

/-- Python `s.split(sep)` for a one-character separator (never returns `[]`;
`''.split(';') == ['']`). -/
def pySplit (sep : Char) : List Char → List (List Char)
  | [] => [[]]
  | c :: cs =>
      if c = sep then [] :: pySplit sep cs
      else
        match pySplit sep cs with
        | r :: rs => (c :: r) :: rs
        | [] => [[c]]

/-- `sep.join(parts)` on character lists. -/
def joinSep (sep : List Char) : List (List Char) → List Char
  | [] => []
  | [p] => p
  | p :: ps => p ++ sep ++ joinSep sep ps

/-- Python `str.lower()` (ASCII is all the source needs). -/
def lowerStr (s : String) : String := ⟨s.data.map Char.toLower⟩

/-- Decimal digits of `n`, most significant first; `fuel` bounds recursion. -/
def natStrAux (fuel n : Nat) : List Char :=
  match fuel with
  | 0 => []
  | fuel' + 1 =>
      if n = 0 then []
      else natStrAux fuel' (n / 10) ++ [Nat.digitChar (n % 10)]

/-- Python `str(n)` for a non-negative `int` (used by the f-string
`f"individual_{len(class_groups)}"`). -/
def natStr (n : Nat) : String := if n = 0 then "0" else ⟨natStrAux (n + 1) n⟩

/-- Numeric value of a digit string (most significant first). -/
def digitsVal (l : List Char) : Nat :=
  l.foldl (fun a c => 10 * a + (c.toNat - 48)) 0

/-- Magnitude part of Python `float(s)`: `digits`, `digits.digits`,
`digits.`, or `.digits`. -/
def pyFloatMag (l : List Char) : Option ℚ :=
  let ip := l.takeWhile Char.isDigit
  let rest := l.dropWhile Char.isDigit
  match rest with
  | [] => if ip.isEmpty then none else some (digitsVal ip)
  | '.' :: fp =>
      if fp.all Char.isDigit && !(ip.isEmpty && fp.isEmpty) then
        some ((digitsVal ip : ℚ) + (digitsVal fp : ℚ) / (10 : ℚ) ^ fp.length)
      else none
  | _ => none

/-- Python `float(s)` for optionally signed decimal literals, `none` when the
call raises `ValueError`.  (Exponents / `inf` / `nan` are outside every claim
and are mapped to `none`.) -/
def pyFloat? (s : String) : Option ℚ :=
  match pyStripL s.data with
  | '+' :: rest => pyFloatMag rest
  | '-' :: rest => (pyFloatMag rest).map (fun q => -q)
  | l => pyFloatMag l

/-! ### The DOM model -/

/-- An attribute value: a string from the parsed input, or a number the code
wrote with `str(int)` / `str(float)`. -/
inductive AttrVal : Type
  | str (s : String)
  | int (n : Int)
  | rat (q : ℚ)
deriving DecidableEq, Repr

abbrev Attrs := List (String × AttrVal)

/-- A DOM node as parsed by BeautifulSoup: an element or a text node. -/
inductive Node : Type
  | elem (tag : String) (attrs : Attrs) (children : List Node)
  | txt (s : String)
deriving Repr

/-- `tag.get(key)` on the attribute list. -/
def getA (a : Attrs) (k : String) : Option AttrVal :=
  (a.find? (fun p => p.1 == k)).map (·.2)

/-- `tag[key] = v`: replace in place, or append a fresh attribute. -/
def setA (a : Attrs) (k : String) (v : AttrVal) : Attrs :=
  if (a.find? (fun p => p.1 == k)).isSome then
    a.map (fun p => if p.1 == k then (k, v) else p)
  else a ++ [(k, v)]

/-- String rendering of an attribute value (how the value reads back as text).
Numeric rendering is abstracted; the source never reads back a numeric
attribute it wrote. -/
def avalStr : AttrVal → String
  | .str s => s
  | .int n => toString n
  | .rat q => toString q

def Node.tag : Node → String
  | .elem t _ _ => t
  | .txt _ => ""

def Node.attrs : Node → Attrs
  | .elem _ a _ => a
  | .txt _ => []

def Node.getAttr (n : Node) (k : String) : Option AttrVal := getA n.attrs k

/-- `node.get(key, dflt)` read as a string. -/
def getAttrStr (n : Node) (k dflt : String) : String :=
  match n.getAttr k with
  | some v => avalStr v
  | none => dflt

/-- `node.get(key, dflt)` as the raw attribute value. -/
def getAttrD (n : Node) (k dflt : String) : AttrVal :=
  (n.getAttr k).getD (.str dflt)

/-- `float(value)` on an attribute value. -/
def avalFloat? : AttrVal → Option ℚ
  | .str s => pyFloat? s
  | .int n => some (n : ℚ)
  | .rat q => some q

mutual
/-- The raw text pieces of a subtree, in document order. -/
def Node.textBits : Node → List String
  | .txt s => [s]
  | .elem _ _ cs => textBitsL cs
def textBitsL : List Node → List String
  | [] => []
  | c :: cs => c.textBits ++ textBitsL cs
end

/-- BeautifulSoup `node.get_text(strip=True)`: every text bit stripped, then
concatenated. -/
def getTextStrip (n : Node) : String :=
  String.join (n.textBits.map pyStrip)

mutual
/-- `node.find_all([tags...])`: matching descendants (not the node itself), in
document order. -/
def subAllN (tags : List String) : Node → List Node
  | .txt _ => []
  | .elem _ _ cs => subAllL tags cs
def subAllL (tags : List String) : List Node → List Node
  | [] => []
  | c :: cs =>
      (match c with
       | .elem tg _ _ =>
           if tags.contains tg then c :: subAllN tags c else subAllN tags c
       | .txt _ => []) ++ subAllL tags cs
end

mutual
/-- `soup.find(tag)`: first matching element in document order (a document is
a list of top-level nodes). -/
def firstTagN (t : String) : Node → Option Node
  | .txt _ => none
  | .elem tg a cs => if tg = t then some (.elem tg a cs) else firstTagL t cs
def firstTagL (t : String) : List Node → Option Node
  | [] => none
  | c :: cs =>
      match firstTagN t c with
      | some r => some r
      | none => firstTagL t cs
end

def findFirstTag (t : String) (doc : List Node) : Option Node := firstTagL t doc

mutual
/-- Count of `foreignObject` elements in a subtree, the node included. -/
def foCountN : Node → Nat
  | .txt _ => 0
  | .elem t _ cs => (if t = "foreignobject" then 1 else 0) + foCountL cs
def foCountL : List Node → Nat
  | [] => 0
  | c :: cs => foCountN c + foCountL cs
end

/-! ### Text Extractor (shared body of both converters, lines 338–350 and
397–412 of `mermaid_renderer.py`) -/

/-- The loop `for div in text_divs: ... if content and len(content) >
len(text_content): text_content = content`. -/
def longestText : List Node → String → String
  | [], acc => acc
  | d :: ds, acc =>
      let c := getTextStrip d
      if c ≠ "" ∧ c.length > acc.length then longestText ds c
      else longestText ds acc

/-- Text extraction from a `foreignObject`: longest stripped text of a
`div`/`span` descendant, falling back to the flattened text of the subtree. -/
def extractTextFO (fo : Node) : String :=
  let t := longestText (subAllN ["div", "span"] fo) ""
  if t = "" then getTextStrip fo else t

/-! ### Geometry Resolver -/

/-- `_get_parent_class_name` (lines 457–471): class attribute values of all
ancestors strictly below the `svg` root, outermost-stopped, joined by spaces.
`ancs` is the ancestor chain, innermost first. -/
def collectClassNames : List Node → List String
  | [] => []
  | p :: rest =>
      if p.tag = "svg" then []
      else
        (match p.getAttr "class" with
         | some v => if avalStr v ≠ "" then [avalStr v] else []
         | none => []) ++ collectClassNames rest

def getParentClassName (ancs : List Node) : String :=
  String.intercalate " " (collectClassNames ancs)

/-- The node-parent walk of `_process_svg_for_pdf` (lines 241–251): nearest
ancestor below `svg` whose joined class string contains `"node"` and
`"default"` as substrings. -/
def findNodeParent : List Node → Option Node
  | [] => none
  | p :: rest =>
      if p.tag = "svg" then none
      else
        let pc := getAttrStr p "class" ""
        if subL "node".data pc.data && subL "default".data pc.data then some p
        else findNodeParent rest

/-- `re.search(r'translate\(([^,\)]+)(?:,([^,\)]+))?\)', ...)` match attempt
at the head of `l`: the translate argument group(s), if the pattern matches
here. -/
def matchTranslateAt (l : List Char) : Option (List Char × Option (List Char)) :=
  if pfxL "translate(".data l then
    let rest := l.drop 10
    let g1 := rest.takeWhile (fun c => !(c == ',' || c == ')'))
    let r1 := rest.dropWhile (fun c => !(c == ',' || c == ')'))
    if g1.isEmpty then none
    else
      match r1 with
      | ')' :: _ => some (g1, none)
      | ',' :: r2 =>
          let g2 := r2.takeWhile (fun c => !(c == ',' || c == ')'))
          let r3 := r2.dropWhile (fun c => !(c == ',' || c == ')'))
          if g2.isEmpty then none
          else
            match r3 with
            | ')' :: _ => some (g1, some g2)
            | _ => none
      | _ => none
  else none

/-- `re.search` over the whole string: first position where the translate
pattern matches. -/
def searchTranslate : List Char → Option (List Char × Option (List Char))
  | [] => none
  | c :: rest =>
      match matchTranslateAt (c :: rest) with
      | some r => some r
      | none => searchTranslate rest

/-- One ancestor's contribution inside `_get_parent_transform` (lines
556–569).  `none` models the uncaught `ValueError` raised by
`float(match.group(...))` on a malformed argument. -/
def gptStep (p : Node) : Option (ℚ × ℚ) :=
  if p.tag = "g" then
    match p.getAttr "transform" with
    | some tv =>
        let tf := avalStr tv
        if tf ≠ "" && subL "translate(".data tf.data then
          match searchTranslate tf.data with
          | some (g1, og2) =>
              match pyFloat? ⟨g1⟩ with
              | none => none
              | some xv =>
                  match og2 with
                  | some g2 =>
                      (match pyFloat? ⟨g2⟩ with
                       | none => none
                       | some yv => some (xv, yv))
                  | none => some (xv, 0)
          | none => some (0, 0)
        else some (0, 0)
    | none => some (0, 0)
  else some (0, 0)

/-- The ancestor walk of `_get_parent_transform`, accumulating translate
offsets below the `svg` root; `none` models the raised `ValueError`. -/
def gptWalk : List Node → ℚ × ℚ → Option (ℚ × ℚ)
  | [], acc => some acc
  | p :: rest, acc =>
      if p.tag = "svg" then some acc
      else
        match gptStep p with
        | none => none
        | some (dx, dy) => gptWalk rest (acc.1 + dx, acc.2 + dy)

/-- `_get_parent_transform(element)` on the ancestor chain of the element
(innermost first). -/
def getParentTransform (ancs : List Node) : Option (ℚ × ℚ) :=
  gptWalk ancs (0, 0)

/-- Ancestors strictly below the first `svg` in the chain. -/
def preSvg : List Node → List Node
  | [] => []
  | p :: rest => if p.tag = "svg" then [] else p :: preSvg rest

/-- Sum of the per-ancestor contributions below the `svg` root, a failing
contribution counted as zero (the quantity the walk returns when nothing
raises). -/
def sumContrib : List Node → ℚ × ℚ
  | [] => (0, 0)
  | p :: rest =>
      if p.tag = "svg" then (0, 0)
      else
        (((gptStep p).getD (0, 0)).1 + (sumContrib rest).1,
         ((gptStep p).getD (0, 0)).2 + (sumContrib rest).2)

/-! ### Converter -/

/-- Style literal of lines 382 (class-name lines). -/
def classNameStyle : String :=
  "font-family: -apple-system, BlinkMacSystemFont, \"Segoe UI\", \"Roboto\", sans-serif; font-size: 16px; font-weight: bold; fill: #111827;"

/-- Style literal of lines 385 and 448 (attribute/method lines and simple
conversions). -/
def regularTextStyle : String :=
  "font-family: -apple-system, BlinkMacSystemFont, \"Segoe UI\", \"Roboto\", sans-serif; font-size: 14px; font-weight: 500; fill: #111827;"

/-- The synthesized `text` element (attributes in the order the source
assigns them; both converters assign `x`, `y`, `text-anchor`,
`dominant-baseline`, `fill`, `style`, then the text content). -/
def mkTextElem (xv yv : AttrVal) (style content : String) : Node :=
  .elem "text"
    [("x", xv), ("y", yv), ("text-anchor", .str "middle"),
     ("dominant-baseline", .str "middle"), ("fill", .str "#111827"),
     ("style", .str style)]
    [.txt content]

/-- `any(c in text_content for c in ['+', '-', '#', '~'])`. -/
def hasUmlMarker (s : String) : Bool :=
  ['+', '-', '#', '~'].any (fun c => s.data.contains c)

/-- `_convert_foreign_object_to_text_for_class(foreign_obj, soup, index,
total_count)` (lines 335–392; `total_count` is unused by the body and
dropped).  `none` models both `return None` and a caught exception. -/
def convertForClass (fo : Node) (index : Nat) : Option Node :=
  let text_content := extractTextFO fo
  if text_content = "" then none
  else
    match avalFloat? (getAttrD fo "width" "100") with
    | none => none
    | some width =>
        let y_offset : Int := 15 + (index : Int) * 16
        if pyStrip text_content = "" then none
        else
          let style :=
            if index ≤ 1 ∧ ¬ hasUmlMarker text_content = true then classNameStyle
            else regularTextStyle
          some (mkTextElem (.rat (width / 2)) (.int y_offset) style text_content)

/-- `_convert_foreign_object_to_text_simple(foreign_obj, soup)` (lines
394–455).  `ancs` is the element's ancestor chain (innermost first), needed
by `_get_parent_class_name`.  `none` models both `return None` and a caught
exception; the inner `try` around the `float(x)`/`float(y)` parses falls back
to box-relative centering. -/
def convertSimple (fo : Node) (ancs : List Node) : Option Node :=
  let text_content := extractTextFO fo
  if text_content = "" then none
  else
    match avalFloat? (getAttrD fo "width" "100"),
          avalFloat? (getAttrD fo "height" "20") with
    | some width, some height =>
        let pos : ℚ × ℚ :=
          match avalFloat? (getAttrD fo "x" "0"),
                avalFloat? (getAttrD fo "y" "0") with
          | some x_pos, some y_pos =>
              if subL "classGroup".data (getParentClassName ancs).data then
                (x_pos + width / 2, y_pos + height / 2 + 4)
              else (width / 2, height / 2 + 4)
          | _, _ => (width / 2, height / 2 + 4)
        some (mkTextElem (.rat pos.1) (.rat pos.2) regularTextStyle text_content)
    | _, _ => none

/-! ### Style Applicator -/

/-- `style` attribute of a node read as `node.get('style', '')`. -/
def styleStrOf (n : Node) : String :=
  match n.getAttr "style" with
  | some v => avalStr v
  | none => ""

/-- The split/strip/filter list comprehension shared by the style passes
(keeping every non-empty stripped part). -/
def strokeParts (cur : String) : List (List Char) :=
  if cur = "" then []
  else ((pySplit ';' cur.data).map pyStripL).filter (fun p => !p.isEmpty)

/-- `_apply_dark_text_style` (lines 573–588), on the style string: drop empty
parts and parts starting with `fill:`, then append the three fixed
declarations. -/
def darkTextStyleStr (cur : String) : String :=
  let base :=
    if cur = "" then []
    else
      ((pySplit ';' cur.data).map pyStripL).filter
        (fun p => !p.isEmpty && !(pfxL "fill:".data p))
  ⟨joinSep "; ".data
    (base ++
      ["fill: #111827 !important".data, "font-weight: 500".data,
       "font-family: -apple-system, BlinkMacSystemFont, \"Segoe UI\", \"Roboto\", sans-serif".data])⟩

/-- `_apply_dark_text_style` on the node: sets `style`, then `fill`. -/
def applyDarkTextStyle : Node → Node
  | .elem t a cs =>
      .elem t
        (setA (setA a "style" (.str (darkTextStyleStr (styleStrOf (.elem t a cs)))))
          "fill" (.str "#111827")) cs
  | .txt s => .txt s

/-- `_apply_dark_stroke_style` (lines 590–608), on the style string. -/
def darkStrokeStyleStr (cur : String) : String :=
  let ps := strokeParts cur
  let ps2 :=
    if ps.any (fun p => subL "stroke:".data p) then
      ps.map (fun p =>
        if pfxL "stroke:".data (pyStripL p) then "stroke: #374151".data else p)
    else ps ++ ["stroke: #374151".data, "stroke-width: 2px".data]
  ⟨joinSep "; ".data ps2⟩

def applyDarkStrokeStyle : Node → Node
  | .elem t a cs =>
      .elem t (setA a "style" (.str (darkStrokeStyleStr (styleStrOf (.elem t a cs))))) cs
  | .txt s => .txt s

/-- `_apply_shape_style` (lines 610–629), on the style string. -/
def shapeStyleStr (cur : String) : String :=
  let ps := strokeParts cur
  let ps2 :=
    if ps.any (fun p => subL "stroke:".data p) then ps
    else ps ++ ["stroke: #374151".data, "stroke-width: 2px".data]
  let ps3 :=
    if ps.any (fun p => subL "fill:".data p) then ps2
    else ps2 ++ ["fill: #f9fafb".data]
  ⟨joinSep "; ".data ps3⟩

def applyShapeStyle : Node → Node
  | .elem t a cs =>
      .elem t (setA a "style" (.str (shapeStyleStr (styleStrOf (.elem t a cs))))) cs
  | .txt s => .txt s

mutual
/-- Map `f` over every element of the subtree whose tag is in `tags`
(modelling `for e in soup.find_all(tags): f(e)` for an `f` that only rewrites
the element's own attributes). -/
def mapTagsN (tags : List String) (f : Node → Node) : Node → Node
  | .txt s => .txt s
  | .elem t a cs =>
      let n' := Node.elem t a (mapTagsL tags f cs)
      if tags.contains t then f n' else n'
def mapTagsL (tags : List String) (f : Node → Node) : List Node → List Node
  | [] => []
  | c :: cs => mapTagsN tags f c :: mapTagsL tags f cs
end

/-- `element['style'] = element.get('style','') + lit`. -/
def appendStyle (lit : String) : Node → Node
  | .elem t a cs =>
      .elem t (setA a "style" (.str (styleStrOf (.elem t a cs) ++ lit))) cs
  | .txt s => .txt s

/-- `f` iterated `d` times on a node. -/
def iterApply (f : Node → Node) : Nat → Node → Node
  | 0, n => n
  | d + 1, n => iterApply f d (f n)

mutual
/-- `for fo in scope.find_all('foreignobject'): for e in
fo.find_all(tags): e['style'] += lit`.  In the source an outer
`foreignObject`'s inner loop also covers the inside of nested ones, which are
then visited again; since the loop body only appends the same literal to the
one element it visits, an element ends up with one append per enclosing
`foreignObject` in the scanned scope.  The traversal therefore carries that
count `d` and iterates the append, which is the same function of the tree. -/
def foFixN (tags : List String) (lit : String) (d : Nat) : Node → Node
  | .txt s => .txt s
  | .elem t a cs =>
      let d' := if t = "foreignobject" then d + 1 else d
      let n' := Node.elem t a (foFixL tags lit d' cs)
      if tags.contains t then iterApply (appendStyle lit) d n' else n'
def foFixL (tags : List String) (lit : String) (d : Nat) : List Node → List Node
  | [] => []
  | c :: cs => foFixN tags lit d c :: foFixL tags lit d cs
end

/-! ### Finalizer Pass -/

/-- `_apply_final_text_visibility_fixes`, text part (lines 313–326), on the
style string: conditional appends of `fill`, `font-weight`, `font-family`. -/
def finalizeTextStyleStr (cur : String) : String :=
  let s1 :=
    if !(subL "fill:".data cur.data) then cur ++ "; fill: #111827 !important"
    else cur
  let s2 :=
    if !(subL "font-weight:".data s1.data) then s1 ++ "; font-weight: 500"
    else s1
  if !(subL "font-family:".data s2.data) then
    s2 ++ "; font-family: -apple-system, BlinkMacSystemFont, \"Segoe UI\", \"Roboto\", sans-serif"
  else s2

/-- Finalizer action on one `text`/`tspan` element: sets `fill`, then
`style`. -/
def applyFinalTextStyle : Node → Node
  | .elem t a cs =>
      .elem t
        (setA (setA a "fill" (.str "#111827")) "style"
          (.str (finalizeTextStyleStr (styleStrOf (.elem t a cs))))) cs
  | .txt s => .txt s

/-- `_apply_final_text_visibility_fixes(soup)` (lines 309–333): restyle every
`text`/`tspan`, then force inline style on `div`/`span`/`p` descendants of
every remaining `foreignObject`. -/
def applyFinalFixesDoc (doc : List Node) : List Node :=
  foFixL ["div", "span", "p"] "; color: #111827 !important; font-weight: 500 !important;" 0
    (mapTagsL ["text", "tspan"] applyFinalTextStyle doc)

/-- The class test of `_process_group_elements` (lines 631–637). -/
def gLabelish (n : Node) : Bool :=
  let c := lowerStr (getAttrStr n "class" "")
  subL "label".data c.data || subL "text".data c.data

mutual
/-- Fifth pass (lines 296–298): `for g in soup.find_all('g'):
_process_group_elements(g)`, document order (ancestors before descendants).
`_process_group_elements` darkens every `text`/`tspan` descendant of a `g`
whose class string contains `label`/`text` (case-insensitively), then appends
the color literal to `div`/`span` descendants of its `foreignObject`
descendants.  Each such ancestor `g` contributes one application of
`_apply_dark_text_style` to each `text`/`tspan` below it, and one literal
append to a `div`/`span` per `foreignObject` sandwiched between the `g` and
the element; the per-element operations of the repeated subtree sweeps touch
distinct elements independently, so the traversal carries the two counts
(`g` = matching-`g` ancestors, `gfo` = matching-`g`/`foreignObject` ancestor
pairs) and iterates the operation at each element, which is the same
function of the tree. -/
def groupPassN (g gfo : Nat) : Node → Node
  | .txt s => .txt s
  | .elem t a cs =>
      let isLG := t = "g" && gLabelish (.elem t a cs)
      let g' := if isLG then g + 1 else g
      let gfo' := if t = "foreignobject" then gfo + g else gfo
      let n' := Node.elem t a (groupPassL g' gfo' cs)
      if t = "text" || t = "tspan" then iterApply applyDarkTextStyle g n'
      else if t = "div" || t = "span" then
        iterApply (appendStyle "; color: #111827 !important;") gfo n'
      else n'
def groupPassL (g gfo : Nat) : List Node → List Node
  | [] => []
  | c :: cs => groupPassN g gfo c :: groupPassL g gfo cs
end

/-! ### FieldObject Grouper and the conversion loop -/

/-- A `foreignObject` occurrence: the node and its ancestor chain, innermost
first. -/
structure FOInfo where
  node : Node
  ancs : List Node
deriving Repr

mutual
/-- `soup.find_all('foreignobject')` with ancestor chains, in document
order. -/
def collectFOsN (anc : List Node) : Node → List FOInfo
  | .txt _ => []
  | .elem t a cs =>
      (if t = "foreignobject" then [⟨.elem t a cs, anc⟩] else []) ++
        collectFOsL (.elem t a cs :: anc) cs
def collectFOsL (anc : List Node) : List Node → List FOInfo
  | [] => []
  | c :: cs => collectFOsN anc c ++ collectFOsL anc cs
end

def collectFOsDoc (doc : List Node) : List FOInfo := collectFOsL [] doc

/-- `svg_element.get('aria-roledescription') == 'classDiagram'` (lines
234–237). -/
def isClassDiagramOf (doc : List Node) : Bool :=
  match findFirstTag "svg" doc with
  | some s =>
      (match s.getAttr "aria-roledescription" with
       | some v => avalStr v == "classDiagram"
       | none => false)
  | none => false

/-- Python-dict append: `if k not in d: d[k] = []` then `d[k].append(i)`
(insertion position kept). -/
def appendAt (gs : List (String × List Nat)) (k : String) (i : Nat) :
    List (String × List Nat) :=
  if (gs.find? (fun p => p.1 == k)).isSome then
    gs.map (fun p => if p.1 == k then (p.1, p.2 ++ [i]) else p)
  else gs ++ [(k, [i])]

/-- Python-dict assignment `d[k] = v` (overwrites, insertion position
kept). -/
def setAt (gs : List (String × List Nat)) (k : String) (v : List Nat) :
    List (String × List Nat) :=
  if (gs.find? (fun p => p.1 == k)).isSome then
    gs.map (fun p => if p.1 == k then (p.1, v) else p)
  else gs ++ [(k, v)]

/-- `node_parent.get('data-id', 'class_unknown')` — the source's default is
`'class_unknown'`. -/
def dataIdOf (np : Node) : String := getAttrStr np "data-id" "class_unknown"

/-- The grouping loop of `_process_svg_for_pdf` (lines 239–262), over the
`foreignObject` list; group values are indices into that list.  A
class-diagram `foreignObject` with a node ancestor is appended under the
ancestor's `data-id`; anything else overwrites the key
`f"individual_{len(class_groups)}"`. -/
def groupFOsAux (isCD : Bool) : List FOInfo → Nat → List (String × List Nat) →
    List (String × List Nat)
  | [], _, gs => gs
  | fi :: rest, i, gs =>
      let np := findNodeParent fi.ancs
      let gs' :=
        match (if isCD then np else none) with
        | some p => appendAt gs (dataIdOf p) i
        | none => setAt gs ("individual_" ++ natStr gs.length) [i]
      groupFOsAux isCD rest (i + 1) gs'

def groupFOs (isCD : Bool) (fos : List FOInfo) : List (String × List Nat) :=
  groupFOsAux isCD fos 0 []

/-- The conversion loop (lines 264–282) for one group: the replacement (or
removal, `none`) decided for each member index. -/
def decideGroup (isCD : Bool) (fos : List FOInfo) (members : List Nat) :
    List (Nat × Option Node) :=
  if isCD ∧ members.length > 1 then
    members.enum.map
      (fun p => (p.2, (fos.get? p.2).bind (fun fi => convertForClass fi.node p.1)))
  else
    members.map
      (fun idx => (idx, (fos.get? idx).bind (fun fi => convertSimple fi.node fi.ancs)))

def allDecisions (isCD : Bool) (fos : List FOInfo)
    (gs : List (String × List Nat)) : List (Nat × Option Node) :=
  (gs.map (fun g => decideGroup isCD fos g.2)).flatten

def decisionFor (ds : List (Nat × Option Node)) (k : Nat) :
    Option (Option Node) :=
  (ds.find? (fun p => p.1 == k)).map (·.2)

mutual
/-- Replay the conversion loop on the tree: the `k`-th `foreignObject` in
document order is replaced (`some (some r)`), decomposed (`some none`), or —
when its group assignment was overwritten and it was never processed — left
in place (`none`), its own subtree then still being scanned.  A replaced or
removed `foreignObject` still advances the counter over its whole subtree. -/
def applyDecN (ds : List (Nat × Option Node)) : Node → Nat → List Node × Nat
  | .txt s, k => ([.txt s], k)
  | .elem t a cs, k =>
      if t = "foreignobject" then
        match decisionFor ds k with
        | some none => ([], k + foCountN (.elem t a cs))
        | some (some r) => ([r], k + foCountN (.elem t a cs))
        | none =>
            let p := applyDecL ds cs (k + 1)
            ([.elem t a p.1], p.2)
      else
        let p := applyDecL ds cs k
        ([.elem t a p.1], p.2)
def applyDecL (ds : List (Nat × Option Node)) : List Node → Nat → List Node × Nat
  | [], k => ([], k)
  | c :: cs, k =>
      let p := applyDecN ds c k
      let q := applyDecL ds cs p.2
      (p.1 ++ q.1, q.2)
end

/-! ### The normalizer -/

mutual
/-- `svg['style'] = 'background: white;'` on the first `svg` (line 223); the
Bool reports whether it was found. -/
def setSvgStyleN : Node → Node × Bool
  | .txt s => (.txt s, false)
  | .elem t a cs =>
      if t = "svg" then
        (.elem t (setA a "style" (.str "background: white;")) cs, true)
      else
        let p := setSvgStyleL cs
        (.elem t a p.1, p.2)
def setSvgStyleL : List Node → List Node × Bool
  | [] => ([], false)
  | c :: cs =>
      let p := setSvgStyleN c
      if p.2 then (p.1 :: cs, true)
      else
        let q := setSvgStyleL cs
        (p.1 :: q.1, q.2)
end

def setFirstSvgStyle (doc : List Node) : List Node := (setSvgStyleL doc).1

/-- The whole mutation pipeline of `_process_svg_for_pdf` (lines 221–301),
applied when an `svg` root exists: background style, grouped conversion,
text/path/shape passes, group pass, finalizer. -/
def processSvgDoc (doc : List Node) : List Node :=
  let doc1 := setFirstSvgStyle doc
  let isCD := isClassDiagramOf doc1
  let fos := collectFOsDoc doc1
  let ds := allDecisions isCD fos (groupFOs isCD fos)
  let doc2 := (applyDecL ds doc1 0).1
  let doc3 := mapTagsL ["text", "tspan"] applyDarkTextStyle doc2
  let doc4 := mapTagsL ["path"] applyDarkStrokeStyle doc3
  let doc5 := mapTagsL ["rect", "circle", "ellipse", "polygon", "polyline"] applyShapeStyle doc4
  applyFinalFixesDoc (groupPassL 0 0 doc5)

mutual
/-- Serialization back to markup (`str(...)`; entity escaping and void-tag
details abstracted — no claim compares serialized output across different
trees). -/
def serializeN : Node → String
  | .txt s => s
  | .elem t a cs =>
      "<" ++ t ++ serializeAttrs a ++ ">" ++ serializeL cs ++ "</" ++ t ++ ">"
def serializeAttrs : Attrs → String
  | [] => ""
  | p :: ps => " " ++ p.1 ++ "=\"" ++ avalStr p.2 ++ "\"" ++ serializeAttrs ps
def serializeL : List Node → String
  | [] => ""
  | c :: cs => serializeN c ++ serializeL cs
end

def serializeDoc (doc : List Node) : String := String.join (doc.map serializeN)

/-- `_process_svg_for_pdf` at document level: with no `svg` root the parsed
document is serialized untouched (lines 210–221, 303–307); otherwise the
pipeline runs and the (first) `svg` subtree is serialized. -/
def processSvgForPdf (doc : List Node) : String :=
  match findFirstTag "svg" doc with
  | none => serializeDoc doc
  | some _ =>
      match findFirstTag "svg" (processSvgDoc doc) with
      | some s => serializeN s
      | none => serializeDoc (processSvgDoc doc)

/-! ### Spec-side definitions (for refutation/refinement statements only) -/

/-- The specification's exact-token reading of the group-ancestor test
(§4.1): the space-separated class list, checked by token equality. -/
def spaceTokens (s : String) : List String :=
  ((pySplit ' ' s.data).map (fun l => (⟨l⟩ : String)))

/-- A class-diagram document whose node `data-id` collides with the
synthesized `individual_1` grouping key: the second `foreignObject` (no node
ancestor) overwrites the first one's group. -/
def collisionDoc : List Node :=
  [.elem "svg" [("aria-roledescription", .str "classDiagram")]
    [.elem "g" [("class", .str "node default"), ("data-id", .str "individual_1")]
      [.elem "foreignobject" [] [.elem "div" [] [.txt "Animal"]]],
     .elem "foreignobject" [] [.elem "div" [] [.txt "Hello"]]]]

/-! ### Attribute-list lemmas -/

theorem getA_cons (p : String × AttrVal) (ps : Attrs) (k : String) :
    getA (p :: ps) k = if (p.1 == k) = true then some p.2 else getA ps k := by
  unfold getA
  simp only [List.find?]
  split
  · rename_i h; rw [if_pos h]; rfl
  · rename_i h; rw [if_neg (by simp [h])]

theorem setA_cons_ne (p : String × AttrVal) (ps : Attrs) (k : String) (v : AttrVal)
    (hp : (p.1 == k) = false) :
    setA (p :: ps) k v = p :: setA ps k v := by
  unfold setA
  simp only [List.find?, hp]
  cases hf : (List.find? (fun q => q.1 == k) ps).isSome with
  | true =>
      simp only [hf, if_true, List.map_cons]
      rw [if_neg (by simp [hp])]
  | false => simp [hf]

theorem setA_cons_eq (p : String × AttrVal) (ps : Attrs) (k : String) (v : AttrVal)
    (hp : (p.1 == k) = true) :
    setA (p :: ps) k v =
      (k, v) :: ps.map (fun q => if q.1 == k then (k, v) else q) := by
  unfold setA
  simp only [List.find?, hp, Option.isSome_some, if_true, List.map_cons]

theorem getA_setA_same (a : Attrs) (k : String) (v : AttrVal) :
    getA (setA a k v) k = some v := by
  induction a with
  | nil => simp [setA, getA, List.find?]
  | cons p ps ih =>
      cases hp : (p.1 == k) with
      | true =>
          rw [setA_cons_eq p ps k v hp, getA_cons]
          simp
      | false =>
          rw [setA_cons_ne p ps k v hp, getA_cons, if_neg (by simp [hp]), ih]

theorem getA_map_set_ne (ps : Attrs) (k k' : String) (v : AttrVal) (h : k' ≠ k) :
    getA (ps.map (fun q => if q.1 == k then (k, v) else q)) k' = getA ps k' := by
  induction ps with
  | nil => rfl
  | cons q qs ih =>
      cases hq : (q.1 == k) with
      | true =>
          have hqk : q.1 = k := by simpa using hq
          simp only [List.map_cons, hq, if_true, getA_cons]
          rw [if_neg (by simp [Ne.symm h]), if_neg (by simp [hqk, Ne.symm h]), ih]
      | false =>
          have hhead : (if (q.1 == k) = true then (k, v) else q) = q := by simp [hq]
          simp only [List.map_cons, hhead, getA_cons]
          by_cases hq' : (q.1 == k') = true
          · rw [if_pos hq', if_pos hq']
          · rw [if_neg hq', if_neg hq', ih]

theorem getA_setA_ne (a : Attrs) (k k' : String) (v : AttrVal) (h : k' ≠ k) :
    getA (setA a k v) k' = getA a k' := by
  induction a with
  | nil =>
      rw [show setA [] k v = [(k, v)] from by simp [setA, List.find?], getA_cons,
        if_neg (by simp [Ne.symm h])]
  | cons p ps ih =>
      cases hp : (p.1 == k) with
      | true =>
          have hpk : p.1 = k := by simpa using hp
          rw [setA_cons_eq p ps k v hp, getA_cons, getA_cons,
            if_neg (by simp [Ne.symm h]), if_neg (by simp [hpk, Ne.symm h]),
            getA_map_set_ne ps k k' v h]
      | false =>
          rw [setA_cons_ne p ps k v hp, getA_cons, getA_cons]
          by_cases hp' : (p.1 == k') = true
          · rw [if_pos hp', if_pos hp']
          · rw [if_neg hp', if_neg hp', ih]

theorem setA_setA_same (a : Attrs) (k : String) (v w : AttrVal) :
    setA (setA a k v) k w = setA a k w := by
  induction a with
  | nil => simp [setA, getA, List.find?]
  | cons p ps ih =>
      cases hp : (p.1 == k) with
      | true =>
          rw [setA_cons_eq p ps k v hp, setA_cons_eq _ _ _ _ (by simp),
            setA_cons_eq p ps k w hp, List.map_map]
          congr 1
          apply List.map_congr_left
          intro q _
          by_cases hq : q.1 = k
          · simp [hq]
          · simp [hq]
      | false =>
          rw [setA_cons_ne p ps k v hp, setA_cons_ne _ _ _ _ hp,
            setA_cons_ne p ps k w hp, ih]

theorem mem_setA (a : Attrs) (k : String) (v : AttrVal) (q : String × AttrVal)
    (hq : q ∈ setA a k v) : q = (k, v) ∨ q ∈ a := by
  induction a with
  | nil => left; simpa [setA, List.find?] using hq
  | cons p ps ih =>
      cases hp : (p.1 == k) with
      | true =>
          rw [setA_cons_eq p ps k v hp] at hq
          rcases List.mem_cons.1 hq with hq | hq
        
          · left; exact hq
          · rw [List.mem_map] at hq
            obtain ⟨r, hr, he⟩ := hq
            by_cases hrk : (r.1 == k) = true
            · left; rw [← he]; simp [hrk]
            · right
              rw [← he]
              simp only [hrk]
              simp [List.mem_cons, hr]
      | false =>
          rw [setA_cons_ne p ps k v hp] at hq
          rcases List.mem_cons.1 hq with hq | hq
          · right; simp [hq]
          · rcases ih hq with h1 | h1
            · left; exact h1
            · right; simp [h1]

theorem setA_key_inv (a : Attrs) (k : String) (v : AttrVal) (q : String × AttrVal)
    (hq : q ∈ setA a k v) (hk : q.1 = k) : q = (k, v) := by
  induction a with
  | nil => simpa [setA, List.find?] using hq
  | cons p ps ih =>
      cases hp : (p.1 == k) with
      | true =>
          rw [setA_cons_eq p ps k v hp] at hq
          rcases List.mem_cons.1 hq with hq | hq
          · exact hq
          · rw [List.mem_map] at hq
            obtain ⟨r, hr, he⟩ := hq
            by_cases hrk : (r.1 == k) = true
            · rw [← he]; simp [hrk]
            · rw [← he] at hk
              rw [if_neg hrk] at hk
              exact absurd (by simp [hk] : (r.1 == k) = true) hrk
      | false =>
          rw [setA_cons_ne p ps k v hp] at hq
          rcases List.mem_cons.1 hq with hq | hq
          · rw [hq] at hk
            exact absurd (by simp [hk] : (p.1 == k) = true) (by simp [hp])
          · exact ih hq

theorem setA_key_mem (a : Attrs) (k : String) (v : AttrVal) :
    ∃ q ∈ setA a k v, q.1 = k := by
  induction a with
  | nil => exact ⟨(k, v), by simp [setA, List.find?], rfl⟩
  | cons p ps ih =>
      cases hp : (p.1 == k) with
      | true =>
          exact ⟨(k, v), by rw [setA_cons_eq p ps k v hp]; simp, rfl⟩
      | false =>
          obtain ⟨q, hq, hqk⟩ := ih
          exact ⟨q, by rw [setA_cons_ne p ps k v hp]; simp [hq], hqk⟩

theorem setA_of_key_inv (a : Attrs) (k : String) (v : AttrVal)
    (hinv : ∀ q ∈ a, q.1 = k → q = (k, v)) (hmem : ∃ q ∈ a, q.1 = k) :
    setA a k v = a := by
  unfold setA
  obtain ⟨q0, hq0, hq0k⟩ := hmem
  rw [if_pos (List.find?_isSome.2 ⟨q0, hq0, by simp [hq0k]⟩)]
  conv_rhs => rw [← List.map_id a]
  apply List.map_congr_left
  intro q hq
  by_cases hqk : (q.1 == k) = true
  · have := hinv q hq (by simpa using hqk)
    simp [hqk, this]
  · simp [hqk]

/-! ### Claim C8 -/

/-- C8 (confirmed): for every input string in which no `svg` root element is
found, the normalizer does not raise: it returns the best-effort parsed
document serialized back to a string, skipping all conversion and styling
passes. -/
theorem c8_no_svg_returns_parsed_document (doc : List Node)
    (h : findFirstTag "svg" doc = none) :
    processSvgForPdf doc = serializeDoc doc := by
  unfold processSvgForPdf
  rw [h]

theorem c8_witness :
    findFirstTag "svg" [Node.elem "p" [] [Node.txt "hello"]] = none ∧
    processSvgForPdf [Node.elem "p" [] [Node.txt "hello"]] =
      serializeDoc [Node.elem "p" [] [Node.txt "hello"]] :=
  ⟨rfl, c8_no_svg_returns_parsed_document _ rfl⟩

/-! ### Claim C3 -/

/-- C3 (amended): the group-ancestor lookup returns the nearest ancestor
below the `svg` root whose joined class string contains `"node"` and
`"default"` as substrings — substring containment, not exact token match. -/
theorem c3_group_ancestor_substring_match (ancs : List Node) (p : Node)
    (h : findNodeParent ancs = some p) :
    ∃ pre post, ancs = pre ++ p :: post ∧
      subL "node".data (getAttrStr p "class" "").data = true ∧
      subL "default".data (getAttrStr p "class" "").data = true ∧
      p.tag ≠ "svg" ∧
      ∀ q ∈ pre, q.tag ≠ "svg" ∧
        ¬(subL "node".data (getAttrStr q "class" "").data = true ∧
          subL "default".data (getAttrStr q "class" "").data = true) := by
  induction ancs with
  | nil => simp [findNodeParent] at h
  | cons q rest ih =>
      unfold findNodeParent at h
      by_cases hsvg : q.tag = "svg"
      · rw [if_pos hsvg] at h
        exact absurd h (by simp)
      · rw [if_neg hsvg] at h
        by_cases hc : (subL "node".data (getAttrStr q "class" "").data &&
            subL "default".data (getAttrStr q "class" "").data) = true
        · rw [if_pos hc] at h
          have hqp : q = p := by simpa using h
          subst hqp
          have hc' := hc
          rw [Bool.and_eq_true] at hc'
          exact ⟨[], rest, rfl, hc'.1, hc'.2, hsvg, by simp⟩
        · rw [if_neg hc] at h
          obtain ⟨pre, post, he, h1, h2, h3, h4⟩ := ih h
          refine ⟨q :: pre, post, by rw [he]; rfl, h1, h2, h3, ?_⟩
          intro r hr
          rcases List.mem_cons.1 hr with hr | hr
          · subst hr
            refine ⟨hsvg, ?_⟩
            rw [Bool.and_eq_true] at hc
            tauto
          · exact h4 r hr

theorem c3_counterexample :
    findNodeParent [Node.elem "g" [("class", AttrVal.str "mynode defaulted")] []] =
      some (Node.elem "g" [("class", AttrVal.str "mynode defaulted")] []) ∧
    ¬ "node" ∈ spaceTokens "mynode defaulted" ∧
    ¬ "default" ∈ spaceTokens "mynode defaulted" :=
  ⟨rfl, by decide, by decide⟩

theorem c3_witness :
    ∃ pre post,
      [Node.elem "g" [("class", AttrVal.str "node default")] []] =
        pre ++ Node.elem "g" [("class", AttrVal.str "node default")] [] :: post ∧
      subL "node".data
        (getAttrStr (Node.elem "g" [("class", AttrVal.str "node default")] [])
          "class" "").data = true ∧
      subL "default".data
        (getAttrStr (Node.elem "g" [("class", AttrVal.str "node default")] [])
          "class" "").data = true ∧
      (Node.elem "g" [("class", AttrVal.str "node default")] []).tag ≠ "svg" ∧
      ∀ q ∈ pre, q.tag ≠ "svg" ∧
        ¬(subL "node".data (getAttrStr q "class" "").data = true ∧
          subL "default".data (getAttrStr q "class" "").data = true) :=
  c3_group_ancestor_substring_match _ _ rfl

/-! ### Claim C5 -/

/-- C5 (amended): a `foreignObject` whose conversion produces no replacement
is removed by the conversion loop — not only for empty extracted text but
also when a numeric attribute fails to parse despite non-empty text; only a
`foreignObject` the loop never processed (no group decision) is left in
place. -/
theorem c5_failed_conversion_removed (fo : Node) (ancs : List Node) (i : Nat)
    (hne : extractTextFO fo ≠ "")
    (hw : avalFloat? (getAttrD fo "width" "100") = none) :
    convertSimple fo ancs = none ∧ convertForClass fo i = none := by
  constructor
  · unfold convertSimple
    rw [hw, if_neg hne]
  · unfold convertForClass
    rw [hw, if_neg hne]

theorem c5_witness :
    convertSimple
      (Node.elem "foreignobject" [("width", AttrVal.str "abc")]
        [Node.elem "div" [] [Node.txt "Hello"]]) [] = none ∧
    convertForClass
      (Node.elem "foreignobject" [("width", AttrVal.str "abc")]
        [Node.elem "div" [] [Node.txt "Hello"]]) 1 = none :=
  c5_failed_conversion_removed _ [] 1 (by decide) (by decide)

theorem c5_counterexample :
    extractTextFO (Node.elem "foreignobject" [("width", AttrVal.str "abc")]
      [Node.elem "div" [] [Node.txt "Hi"]]) = "Hi" ∧
    foCountL (processSvgDoc
      [Node.elem "svg" []
        [Node.elem "foreignobject" [("width", AttrVal.str "abc")]
          [Node.elem "div" [] [Node.txt "Hi"]]]]) = 0 ∧
    findFirstTag "text" (processSvgDoc
      [Node.elem "svg" []
        [Node.elem "foreignobject" [("width", AttrVal.str "abc")]
          [Node.elem "div" [] [Node.txt "Hi"]]]]) = none :=
  ⟨rfl, rfl, rfl⟩

/-! ### Claim C6 -/

theorem gptWalk_sums (ancs : List Node) :
    ∀ acc : ℚ × ℚ, (∀ p ∈ preSvg ancs, gptStep p ≠ none) →
      gptWalk ancs acc =
        some (acc.1 + (sumContrib ancs).1, acc.2 + (sumContrib ancs).2) := by
  induction ancs with
  | nil => intro acc _; simp [gptWalk, sumContrib]
  | cons p rest ih =>
      intro acc h
      by_cases hsvg : p.tag = "svg"
      · simp [gptWalk, sumContrib, hsvg]
      · have hp : gptStep p ≠ none := h p (by simp [preSvg, hsvg])
        obtain ⟨v, hv⟩ := Option.ne_none_iff_exists'.mp hp
        obtain ⟨dx, dy⟩ := v
        have hrest : ∀ q ∈ preSvg rest, gptStep q ≠ none := by
          intro q hq
          exact h q (by simp [preSvg, hsvg, hq])
        have hred : gptWalk (p :: rest) acc = gptWalk rest (acc.1 + dx, acc.2 + dy) := by
          conv_lhs => unfold gptWalk
          rw [if_neg hsvg, hv]
        have hsum : sumContrib (p :: rest) =
            (dx + (sumContrib rest).1, dy + (sumContrib rest).2) := by
          conv_lhs => unfold sumContrib
          rw [if_neg hsvg, hv]
          simp
        rw [hred, ih (acc.1 + dx, acc.2 + dy) hrest, hsum]
        simp only [Option.some_inj, Prod.ext_iff]
        constructor <;> ring

/-- C6 (amended): a malformed numeric argument inside a matched `translate`
makes the accumulation fail (an uncaught `ValueError` in the source) rather
than being skipped; when every pre-`svg` ancestor contribution parses, the
walk returns the sum of all the translate contributions. -/
theorem c6_translate_accumulation (ancs : List Node)
    (h : ∀ p ∈ preSvg ancs, gptStep p ≠ none) :
    getParentTransform ancs = some (sumContrib ancs) := by
  have h0 := gptWalk_sums ancs (0, 0) h
  simpa [getParentTransform] using h0

theorem c6_counterexample :
    getParentTransform
      [Node.elem "g" [("transform", AttrVal.str "translate(abc)")] [],
       Node.elem "g" [("transform", AttrVal.str "translate(10,5)")] []] = none ∧
    gptStep (Node.elem "g" [("transform", AttrVal.str "translate(10,5)")] []) =
      some (10, 5) ∧
    (none : Option (ℚ × ℚ)) ≠ some (10, 5) :=
  ⟨rfl, by decide, by simp⟩

theorem c6_witness :
    getParentTransform
      [Node.elem "g" [("transform", AttrVal.str "translate(10,5)")] []] =
      some (sumContrib
        [Node.elem "g" [("transform", AttrVal.str "translate(10,5)")] []]) :=
  c6_translate_accumulation _ (by decide)

/-! ### Converter evaluation lemmas -/

theorem convertSimple_eval_class (fo : Node) (ancs : List Node) (w hgt x y : ℚ)
    (hne : extractTextFO fo ≠ "")
    (hw : avalFloat? (getAttrD fo "width" "100") = some w)
    (hh : avalFloat? (getAttrD fo "height" "20") = some hgt)
    (hx : avalFloat? (getAttrD fo "x" "0") = some x)
    (hy : avalFloat? (getAttrD fo "y" "0") = some y)
    (hcg : subL "classGroup".data (getParentClassName ancs).data = true) :
    convertSimple fo ancs =
      some (mkTextElem (.rat (x + w / 2)) (.rat (y + hgt / 2 + 4))
        regularTextStyle (extractTextFO fo)) := by
  simp only [convertSimple, hne, hw, hh, hx, hy, hcg, if_false, if_true, ite_true,
    ite_false]

theorem convertSimple_eval_plain (fo : Node) (ancs : List Node) (w hgt x y : ℚ)
    (hne : extractTextFO fo ≠ "")
    (hw : avalFloat? (getAttrD fo "width" "100") = some w)
    (hh : avalFloat? (getAttrD fo "height" "20") = some hgt)
    (hx : avalFloat? (getAttrD fo "x" "0") = some x)
    (hy : avalFloat? (getAttrD fo "y" "0") = some y)
    (hcg : subL "classGroup".data (getParentClassName ancs).data = false) :
    convertSimple fo ancs =
      some (mkTextElem (.rat (w / 2)) (.rat (hgt / 2 + 4))
        regularTextStyle (extractTextFO fo)) := by
  simp only [convertSimple, hne, hw, hh, hx, hy, hcg, Bool.false_eq_true, if_false,
    if_true, ite_true, ite_false]

theorem convertForClass_eval (fo : Node) (i : Nat) (w : ℚ)
    (hne : extractTextFO fo ≠ "") (hs : pyStrip (extractTextFO fo) ≠ "")
    (hw : avalFloat? (getAttrD fo "width" "100") = some w) :
    convertForClass fo i =
      some (mkTextElem (.rat (w / 2)) (.int (15 + (i : Int) * 16))
        (if i ≤ 1 ∧ ¬ hasUmlMarker (extractTextFO fo) = true then classNameStyle
         else regularTextStyle)
        (extractTextFO fo)) := by
  simp only [convertForClass, hne, hs, hw, if_false, ite_false]

/-! ### Claim C2 -/

/-- C2 (amended): the singleton conversion never adds the accumulated
ancestor translation: with a `classGroup` ancestor the text is placed at
`(x + width/2, y + height/2 + 4)` exactly, and the result depends on the
ancestor chain only through the joined ancestor class string (never through
`transform` attributes). -/
theorem c2_singleton_position_untranslated (fo : Node) (ancs : List Node)
    (w hgt x y : ℚ)
    (hne : extractTextFO fo ≠ "")
    (hw : avalFloat? (getAttrD fo "width" "100") = some w)
    (hh : avalFloat? (getAttrD fo "height" "20") = some hgt)
    (hx : avalFloat? (getAttrD fo "x" "0") = some x)
    (hy : avalFloat? (getAttrD fo "y" "0") = some y)
    (hcg : subL "classGroup".data (getParentClassName ancs).data = true) :
    convertSimple fo ancs =
      some (mkTextElem (.rat (x + w / 2)) (.rat (y + hgt / 2 + 4))
        regularTextStyle (extractTextFO fo)) ∧
    ∀ ancs2, getParentClassName ancs2 = getParentClassName ancs →
      convertSimple fo ancs2 = convertSimple fo ancs := by
  refine ⟨convertSimple_eval_class fo ancs w hgt x y hne hw hh hx hy hcg, ?_⟩
  intro ancs2 he
  unfold convertSimple
  rw [he]

theorem c2_witness :
    convertSimple
      (Node.elem "foreignobject"
        [("x", AttrVal.str "10"), ("y", AttrVal.str "20"),
         ("width", AttrVal.str "100"), ("height", AttrVal.str "20")]
        [Node.elem "div" [] [Node.txt "A"]])
      [Node.elem "g"
        [("class", AttrVal.str "classGroup"),
         ("transform", AttrVal.str "translate(7,3)")] []] =
      some (mkTextElem (.rat (10 + 100 / 2)) (.rat (20 + 20 / 2 + 4))
        regularTextStyle
        (extractTextFO (Node.elem "foreignobject"
          [("x", AttrVal.str "10"), ("y", AttrVal.str "20"),
           ("width", AttrVal.str "100"), ("height", AttrVal.str "20")]
          [Node.elem "div" [] [Node.txt "A"]]))) ∧
    ∀ ancs2,
      getParentClassName ancs2 =
        getParentClassName
          [Node.elem "g"
            [("class", AttrVal.str "classGroup"),
             ("transform", AttrVal.str "translate(7,3)")] []] →
      convertSimple
        (Node.elem "foreignobject"
          [("x", AttrVal.str "10"), ("y", AttrVal.str "20"),
           ("width", AttrVal.str "100"), ("height", AttrVal.str "20")]
          [Node.elem "div" [] [Node.txt "A"]]) ancs2 =
      convertSimple
        (Node.elem "foreignobject"
          [("x", AttrVal.str "10"), ("y", AttrVal.str "20"),
           ("width", AttrVal.str "100"), ("height", AttrVal.str "20")]
          [Node.elem "div" [] [Node.txt "A"]])
        [Node.elem "g"
          [("class", AttrVal.str "classGroup"),
           ("transform", AttrVal.str "translate(7,3)")] []] :=
  c2_singleton_position_untranslated _ _ 100 20 10 20 (by decide) (by decide)
    (by decide) (by decide) (by decide) (by decide)

theorem c2_counterexample :
    (convertSimple
      (Node.elem "foreignobject"
        [("x", AttrVal.str "10"), ("y", AttrVal.str "20"),
         ("width", AttrVal.str "100"), ("height", AttrVal.str "20")]
        [Node.elem "div" [] [Node.txt "A"]])
      [Node.elem "g"
        [("class", AttrVal.str "classGroup"),
         ("transform", AttrVal.str "translate(7,3)")] []]).bind
      (fun t => t.getAttr "x") = some (.rat (10 + 100 / 2)) ∧
    getParentTransform
      [Node.elem "g"
        [("class", AttrVal.str "classGroup"),
         ("transform", AttrVal.str "translate(7,3)")] []] = some (7, 3) ∧
    (10 + 100 / 2 : ℚ) ≠ 10 + 100 / 2 + 7 := by
  refine ⟨?_, ?_, by norm_num⟩
  · rw [convertSimple_eval_class _ _ 100 20 10 20 (by decide) (by decide) (by decide)
      (by decide) (by decide) (by decide)]
    rfl
  · have hstep : gptStep (Node.elem "g"
        [("class", AttrVal.str "classGroup"),
         ("transform", AttrVal.str "translate(7,3)")] []) = some (7, 3) := by decide
    unfold getParentTransform gptWalk
    rw [if_neg (by decide : ¬ (Node.elem "g"
        [("class", AttrVal.str "classGroup"),
         ("transform", AttrVal.str "translate(7,3)")] []).tag = "svg"), hstep]
    simp [gptWalk, Prod.ext_iff]

/-! ### Claim C1 -/

/-- C1 (amended): for a class-diagram group with member texts
`["", "ClassName", "+field: Type", "+method()"]`, the converter drops the
empty first line, emits `"ClassName"` as a bold title and the remaining two
lines as regular-weight lines — but the y offsets are 31, 47 and 63 from the
box top (base 15 + pitch 16 · index, the dropped empty member still consuming
index 0), not 15, 31, 47. -/
theorem c1_class_group_layout (fo0 fo1 fo2 fo3 : Node) (w1 w2 w3 : ℚ)
    (h0 : extractTextFO fo0 = "")
    (h1 : extractTextFO fo1 = "ClassName")
    (hw1 : avalFloat? (getAttrD fo1 "width" "100") = some w1)
    (h2 : extractTextFO fo2 = "+field: Type")
    (hw2 : avalFloat? (getAttrD fo2 "width" "100") = some w2)
    (h3 : extractTextFO fo3 = "+method()")
    (hw3 : avalFloat? (getAttrD fo3 "width" "100") = some w3) :
    convertForClass fo0 0 = none ∧
    convertForClass fo1 1 =
      some (mkTextElem (.rat (w1 / 2)) (.int 31) classNameStyle "ClassName") ∧
    convertForClass fo2 2 =
      some (mkTextElem (.rat (w2 / 2)) (.int 47) regularTextStyle "+field: Type") ∧
    convertForClass fo3 3 =
      some (mkTextElem (.rat (w3 / 2)) (.int 63) regularTextStyle "+method()") := by
  refine ⟨?_, ?_, ?_, ?_⟩
  · unfold convertForClass
    rw [h0]
    simp
  · rw [convertForClass_eval fo1 1 w1 (by rw [h1]; decide) (by rw [h1]; decide) hw1,
      h1]
    norm_num [show hasUmlMarker "ClassName" = false from by decide]
  · rw [convertForClass_eval fo2 2 w2 (by rw [h2]; decide) (by rw [h2]; decide) hw2,
      h2]
    norm_num
  · rw [convertForClass_eval fo3 3 w3 (by rw [h3]; decide) (by rw [h3]; decide) hw3,
      h3]
    norm_num

theorem c1_witness :
    convertForClass
      (Node.elem "foreignobject" [("width", AttrVal.str "100")]
        [Node.elem "div" [] []]) 0 = none ∧
    convertForClass
      (Node.elem "foreignobject" [("width", AttrVal.str "100")]
        [Node.elem "div" [] [Node.txt "ClassName"]]) 1 =
      some (mkTextElem (.rat ((100 : ℚ) / 2)) (.int 31) classNameStyle "ClassName") ∧
    convertForClass
      (Node.elem "foreignobject" [("width", AttrVal.str "100")]
        [Node.elem "div" [] [Node.txt "+field: Type"]]) 2 =
      some (mkTextElem (.rat ((100 : ℚ) / 2)) (.int 47) regularTextStyle
        "+field: Type") ∧
    convertForClass
      (Node.elem "foreignobject" [("width", AttrVal.str "100")]
        [Node.elem "div" [] [Node.txt "+method()"]]) 3 =
      some (mkTextElem (.rat ((100 : ℚ) / 2)) (.int 63) regularTextStyle
        "+method()") :=
  c1_class_group_layout _ _ _ _ 100 100 100 (by decide) (by decide) (by decide)
    (by decide) (by decide) (by decide) (by decide)

theorem c1_counterexample :
    convertForClass
      (Node.elem "foreignobject" [("width", AttrVal.str "100")]
        [Node.elem "div" [] []]) 0 = none ∧
    (convertForClass
      (Node.elem "foreignobject" [("width", AttrVal.str "100")]
        [Node.elem "div" [] [Node.txt "ClassName"]]) 1).bind
      (fun t => t.getAttr "y") = some (.int 31) ∧
    (convertForClass
      (Node.elem "foreignobject" [("width", AttrVal.str "100")]
        [Node.elem "div" [] [Node.txt "+field: Type"]]) 2).bind
      (fun t => t.getAttr "y") = some (.int 47) ∧
    (convertForClass
      (Node.elem "foreignobject" [("width", AttrVal.str "100")]
        [Node.elem "div" [] [Node.txt "+method()"]]) 3).bind
      (fun t => t.getAttr "y") = some (.int 63) ∧
    AttrVal.int 31 ≠ AttrVal.int 15 :=
  ⟨rfl, rfl, rfl, rfl, by decide⟩

/-! ### Substring and strip lemmas -/

theorem pfxL_append (pat l t : List Char) (h : pfxL pat l = true) :
    pfxL pat (l ++ t) = true := by
  induction pat generalizing l with
  | nil => rfl
  | cons c cs ih =>
      cases l with
      | nil => simp [pfxL] at h
      | cons b bs =>
          simp only [pfxL] at h ⊢
          rw [Bool.and_eq_true] at h ⊢
          exact ⟨h.1, ih bs h.2⟩

theorem subL_nil_pat (l : List Char) : subL [] l = true := by
  cases l with
  | nil => rfl
  | cons c cs => simp [subL, pfxL]

theorem pfx_imp_subL (pat l : List Char) (h : pfxL pat l = true) :
    subL pat l = true := by
  cases l with
  | nil =>
      cases pat with
      | nil => rfl
      | cons c cs => simp [pfxL] at h
  | cons c cs =>
      unfold subL
      rw [h]
      rfl

theorem subL_append_right (pat s t : List Char) (h : subL pat t = true) :
    subL pat (s ++ t) = true := by
  induction s with
  | nil => simpa using h
  | cons c cs ih =>
      show (pfxL pat (c :: (cs ++ t)) || subL pat (cs ++ t)) = true
      rw [ih]
      simp

theorem subL_append_left (pat s t : List Char) (h : subL pat s = true) :
    subL pat (s ++ t) = true := by
  induction s with
  | nil =>
      have : pat = [] := by simpa [subL] using h
      subst this
      exact subL_nil_pat t
  | cons c cs ih =>
      unfold subL at h
      rw [Bool.or_eq_true] at h
      rcases h with h | h
      · exact pfx_imp_subL pat _ (by simpa using pfxL_append pat (c :: cs) t h)
      · show (pfxL pat (c :: (cs ++ t)) || subL pat (cs ++ t)) = true
        rw [ih h]
        simp

theorem dropWhile_dropWhile (p : Char → Bool) (l : List Char) :
    (l.dropWhile p).dropWhile p = l.dropWhile p := by
  induction l with
  | nil => rfl
  | cons c cs ih =>
      by_cases hc : p c = true
      · simp [List.dropWhile_cons, hc, ih]
      · simp [List.dropWhile_cons, hc]

theorem dropWhile_of_pfx (p : Char → Bool) (x d : List Char) (hx : x <+: d)
    (hd : d.dropWhile p = d) : x.dropWhile p = x := by
  cases x with
  | nil => rfl
  | cons c xs =>
      obtain ⟨t, ht⟩ := hx
      have hc : p c = false := by
        by_contra hcc
        rw [Bool.not_eq_false] at hcc
        have h1 : d.dropWhile p = (xs ++ t).dropWhile p := by
          rw [← ht]
          simp [List.dropWhile_cons, hcc]
        have h2 := ((List.dropWhile_suffix p (l := xs ++ t)).sublist).length_le
        rw [hd] at h1
        have h3 : d.length = (c :: xs ++ t).length := by rw [ht]
        rw [h1] at h3
        simp [List.length_append] at h2 h3
        omega
      simp [List.dropWhile_cons, hc]

theorem pyStripL_no_leading (l : List Char) :
    (pyStripL l).dropWhile Char.isWhitespace = pyStripL l := by
  apply dropWhile_of_pfx Char.isWhitespace (pyStripL l) (l.dropWhile Char.isWhitespace)
  · show ((l.dropWhile Char.isWhitespace).reverse.dropWhile Char.isWhitespace).reverse <+:
        l.dropWhile Char.isWhitespace
    have h5 := List.reverse_prefix.mpr
      (List.dropWhile_suffix (l := (l.dropWhile Char.isWhitespace).reverse)
        Char.isWhitespace)
    rw [List.reverse_reverse] at h5
    exact h5
  · exact dropWhile_dropWhile _ _

theorem pyStripL_no_trailing (l : List Char) :
    (pyStripL l).reverse.dropWhile Char.isWhitespace = (pyStripL l).reverse := by
  have h : (pyStripL l).reverse =
      (l.dropWhile Char.isWhitespace).reverse.dropWhile Char.isWhitespace := by
    unfold pyStripL
    rw [List.reverse_reverse]
  rw [h, dropWhile_dropWhile]

theorem pyStripL_eq_self (m : List Char)
    (h1 : m.dropWhile Char.isWhitespace = m)
    (h2 : m.reverse.dropWhile Char.isWhitespace = m.reverse) :
    pyStripL m = m := by
  unfold pyStripL
  rw [h1, h2, List.reverse_reverse]

theorem pyStripL_idem (l : List Char) : pyStripL (pyStripL l) = pyStripL l :=
  pyStripL_eq_self _ (pyStripL_no_leading l) (pyStripL_no_trailing l)

theorem pyStripL_cons_space (l : List Char) : pyStripL (' ' :: l) = pyStripL l := by
  unfold pyStripL
  rw [List.dropWhile_cons]
  simp

theorem mem_pyStripL (q : List Char) (x : Char) (hx : x ∈ pyStripL q) : x ∈ q := by
  unfold pyStripL at hx
  rw [List.mem_reverse] at hx
  have h1 : x ∈ (q.dropWhile Char.isWhitespace).reverse :=
    (List.dropWhile_suffix _).subset hx
  rw [List.mem_reverse] at h1
  exact (List.dropWhile_suffix _).subset h1

/-! ### Split/join round-trip lemmas -/

theorem pySplit_cons_shape (sep : Char) (l : List Char) :
    ∃ r rs, pySplit sep l = r :: rs := by
  induction l with
  | nil => exact ⟨[], [], rfl⟩
  | cons c cs ih =>
      obtain ⟨r, rs, h⟩ := ih
      by_cases hc : c = sep
      · exact ⟨[], pySplit sep cs, by simp [pySplit, hc]⟩
      · exact ⟨c :: r, rs, by simp [pySplit, hc, h]⟩

theorem pySplit_append (sep : Char) (p l r : List Char) (rs : List (List Char))
    (hp : sep ∉ p) (h : pySplit sep l = r :: rs) :
    pySplit sep (p ++ l) = (p ++ r) :: rs := by
  induction p with
  | nil => simpa using h
  | cons c cs ih =>
      have hc : ¬ c = sep := fun e => hp (by simp [e])
      have ih' := ih (fun e => hp (by simp [e]))
      simp [pySplit, hc, ih']

theorem pySplit_mem_no_sep (sep : Char) (l : List Char) (q : List Char)
    (hq : q ∈ pySplit sep l) : sep ∉ q := by
  induction l generalizing q with
  | nil =>
      have : q = [] := by simpa [pySplit] using hq
      simp [this]
  | cons c cs ih =>
      by_cases hc : c = sep
      · rw [show pySplit sep (c :: cs) = [] :: pySplit sep cs from by simp [pySplit, hc]]
          at hq
        rcases List.mem_cons.1 hq with hq | hq
        · simp [hq]
        · exact ih q hq
      · obtain ⟨r, rs, h⟩ := pySplit_cons_shape sep cs
        rw [show pySplit sep (c :: cs) = (c :: r) :: rs from by simp [pySplit, hc, h]]
          at hq
        rcases List.mem_cons.1 hq with hq | hq
        · subst hq
          intro hmem
          rcases List.mem_cons.1 hmem with he | hmem
          · exact hc he.symm
          · exact ih r (by rw [h]; simp) hmem
        · exact ih q (by rw [h]; simp [hq])

theorem joinSep_cons_cons (sep : List Char) (p q : List Char)
    (qs : List (List Char)) :
    joinSep sep (p :: q :: qs) = p ++ sep ++ joinSep sep (q :: qs) := rfl

theorem parts_of_join (ps : List (List Char))
    (hclean : ∀ p ∈ ps, p ≠ [] ∧ pyStripL p = p ∧ ';' ∉ p) (hne : ps ≠ []) :
    ((pySplit ';' (joinSep "; ".data ps)).map pyStripL).filter
      (fun p => !p.isEmpty) = ps := by
  induction ps with
  | nil => exact absurd rfl hne
  | cons p ps ih =>
      obtain ⟨hp1, hp2, hp3⟩ := hclean p (by simp)
      cases ps with
      | nil =>
          have h1 : pySplit ';' (p ++ []) = (p ++ []) :: [] :=
            pySplit_append ';' p [] [] [] hp3 rfl
          rw [List.append_nil] at h1
          show ((pySplit ';' p).map pyStripL).filter (fun p => !p.isEmpty) = [p]
          rw [h1]
          simp [hp2, hp1]
      | cons q qs =>
          have hscs : pySplit ';' (';' :: (' ' :: joinSep "; ".data (q :: qs))) =
              [] :: pySplit ';' (' ' :: joinSep "; ".data (q :: qs)) := by
            simp [pySplit]
          have h1 : pySplit ';' (p ++ ';' :: (' ' :: joinSep "; ".data (q :: qs))) =
              (p ++ []) :: pySplit ';' (' ' :: joinSep "; ".data (q :: qs)) :=
            pySplit_append ';' p _ [] _ hp3 hscs
          rw [List.append_nil] at h1
          obtain ⟨r, rs, hj⟩ := pySplit_cons_shape ';' (joinSep "; ".data (q :: qs))
          have h2 : pySplit ';' (' ' :: joinSep "; ".data (q :: qs)) =
              (' ' :: r) :: rs := by
            simp [pySplit, hj]
          rw [joinSep_cons_cons, List.append_assoc]
          show ((pySplit ';' (p ++ (';' :: (' ' :: joinSep "; ".data (q :: qs))))).map
            pyStripL).filter (fun p => !p.isEmpty) = p :: q :: qs
          rw [h1, h2]
          simp only [List.map_cons, hp2, pyStripL_cons_space]
          rw [List.filter_cons, if_pos (by simpa using hp1)]
          have ih' := ih (fun x hx => hclean x (by simp [hx])) (by simp)
          rw [hj] at ih'
          simp only [List.map_cons] at ih'
          rw [ih']

/-! ### Style-pass idempotence (C4) -/

theorem joinSep_ne_nil (sep p : List Char) (ps : List (List Char)) (hp : p ≠ []) :
    joinSep sep (p :: ps) ≠ [] := by
  cases ps with
  | nil => simpa [joinSep]
  | cons q qs => simp [joinSep_cons_cons, hp]

theorem strokeParts_clean (cur : String) :
    ∀ p ∈ strokeParts cur, p ≠ [] ∧ pyStripL p = p ∧ ';' ∉ p := by
  intro p hp
  unfold strokeParts at hp
  split at hp
  · simp at hp
  · rw [List.mem_filter] at hp
    obtain ⟨hmem, hfil⟩ := hp
    rw [List.mem_map] at hmem
    obtain ⟨q, hq, rfl⟩ := hmem
    refine ⟨by simpa using hfil, pyStripL_idem q, ?_⟩
    intro hmem'
    exact pySplit_mem_no_sep ';' _ q hq (mem_pyStripL q ';' hmem')

theorem strokeParts_join (ps : List (List Char))
    (hclean : ∀ p ∈ ps, p ≠ [] ∧ pyStripL p = p ∧ ';' ∉ p) (hne : ps ≠ []) :
    strokeParts ⟨joinSep "; ".data ps⟩ = ps := by
  obtain ⟨p, ps', rfl⟩ := List.exists_cons_of_ne_nil hne
  unfold strokeParts
  rw [if_neg (by
    intro h
    have hd := congrArg String.data h
    exact joinSep_ne_nil "; ".data p ps' (hclean p (by simp)).1 hd)]
  exact parts_of_join _ hclean hne

theorem darkStrokeStyleStr_fixed (ps : List (List Char))
    (hclean : ∀ p ∈ ps, p ≠ [] ∧ pyStripL p = p ∧ ';' ∉ p) (hne : ps ≠ [])
    (hany : ps.any (fun p => subL "stroke:".data p) = true)
    (hmap : ps.map (fun p =>
      if pfxL "stroke:".data (pyStripL p) = true then "stroke: #374151".data
      else p) = ps) :
    darkStrokeStyleStr ⟨joinSep "; ".data ps⟩ = ⟨joinSep "; ".data ps⟩ := by
  simp only [darkStrokeStyleStr]
  rw [strokeParts_join ps hclean hne, if_pos hany, hmap]

theorem darkStrokeStyleStr_idem (cur : String) :
    darkStrokeStyleStr (darkStrokeStyleStr cur) = darkStrokeStyleStr cur := by
  have hclean := strokeParts_clean cur
  by_cases hstroke :
      (strokeParts cur).any (fun p => subL "stroke:".data p) = true
  · have hne : strokeParts cur ≠ [] := by
      intro h
      rw [h] at hstroke
      simp at hstroke
    have hfirst : darkStrokeStyleStr cur =
        ⟨joinSep "; ".data ((strokeParts cur).map (fun p =>
          if pfxL "stroke:".data (pyStripL p) = true then "stroke: #374151".data
          else p))⟩ := by
      simp only [darkStrokeStyleStr]
      rw [if_pos hstroke]
    have hclean2 : ∀ p ∈ (strokeParts cur).map (fun p =>
        if pfxL "stroke:".data (pyStripL p) = true then "stroke: #374151".data
        else p), p ≠ [] ∧ pyStripL p = p ∧ ';' ∉ p := by
      intro p hp
      rw [List.mem_map] at hp
      obtain ⟨q, hq, rfl⟩ := hp
      by_cases hpf : pfxL "stroke:".data (pyStripL q) = true
      · rw [if_pos hpf]
        exact ⟨by decide, by decide, by decide⟩
      · rw [if_neg hpf]
        exact hclean q hq
    have hne2 : (strokeParts cur).map (fun p =>
        if pfxL "stroke:".data (pyStripL p) = true then "stroke: #374151".data
        else p) ≠ [] := by
      simpa using hne
    have hany2 : ((strokeParts cur).map (fun p =>
        if pfxL "stroke:".data (pyStripL p) = true then "stroke: #374151".data
        else p)).any (fun p => subL "stroke:".data p) = true := by
      rw [List.any_eq_true] at hstroke ⊢
      obtain ⟨q, hq, hsq⟩ := hstroke
      refine ⟨if pfxL "stroke:".data (pyStripL q) = true then "stroke: #374151".data
        else q, List.mem_map.2 ⟨q, hq, rfl⟩, ?_⟩
      split
      · decide
      · exact hsq
    have hmap2 : ((strokeParts cur).map (fun p =>
        if pfxL "stroke:".data (pyStripL p) = true then "stroke: #374151".data
        else p)).map (fun p =>
        if pfxL "stroke:".data (pyStripL p) = true then "stroke: #374151".data
        else p) = (strokeParts cur).map (fun p =>
        if pfxL "stroke:".data (pyStripL p) = true then "stroke: #374151".data
        else p) := by
      rw [List.map_map]
      apply List.map_congr_left
      intro q _
      show (fun p => if pfxL "stroke:".data (pyStripL p) = true
          then "stroke: #374151".data else p)
        (if pfxL "stroke:".data (pyStripL q) = true then "stroke: #374151".data
         else q) = _
      by_cases hpf : pfxL "stroke:".data (pyStripL q) = true
      · rw [if_pos hpf]
        show (if pfxL "stroke:".data (pyStripL "stroke: #374151".data) = true
            then "stroke: #374151".data else "stroke: #374151".data) = _
        rw [if_pos (by decide)]
      · rw [if_neg hpf]
        show (if pfxL "stroke:".data (pyStripL q) = true then "stroke: #374151".data
            else q) = q
        rw [if_neg hpf]
    rw [hfirst]
    exact darkStrokeStyleStr_fixed _ hclean2 hne2 hany2 hmap2
  · have hfirst : darkStrokeStyleStr cur =
        ⟨joinSep "; ".data (strokeParts cur ++
          ["stroke: #374151".data, "stroke-width: 2px".data])⟩ := by
      simp only [darkStrokeStyleStr]
      rw [if_neg hstroke]
    have hnosub : ∀ q ∈ strokeParts cur, subL "stroke:".data q = false := by
      intro q hq
      rw [Bool.eq_false_iff]
      intro hsq
      exact hstroke (List.any_eq_true.2 ⟨q, hq, hsq⟩)
    have hclean2 : ∀ p ∈ strokeParts cur ++
        ["stroke: #374151".data, "stroke-width: 2px".data],
        p ≠ [] ∧ pyStripL p = p ∧ ';' ∉ p := by
      intro p hp
      rcases List.mem_append.1 hp with hp | hp
      · exact strokeParts_clean cur p hp
      · rcases List.mem_cons.1 hp with rfl | hp
        · exact ⟨by decide, by decide, by decide⟩
        · rcases List.mem_cons.1 hp with rfl | hp
          · exact ⟨by decide, by decide, by decide⟩
          · simp at hp
    have hne2 : strokeParts cur ++
        ["stroke: #374151".data, "stroke-width: 2px".data] ≠ [] := by simp
    have hany2 : (strokeParts cur ++
        ["stroke: #374151".data, "stroke-width: 2px".data]).any
        (fun p => subL "stroke:".data p) = true := by
      rw [List.any_eq_true]
      exact ⟨"stroke: #374151".data, by simp, by decide⟩
    have hmap2 : (strokeParts cur ++
        ["stroke: #374151".data, "stroke-width: 2px".data]).map (fun p =>
        if pfxL "stroke:".data (pyStripL p) = true then "stroke: #374151".data
        else p) = strokeParts cur ++
        ["stroke: #374151".data, "stroke-width: 2px".data] := by
      rw [List.map_append]
      congr 1
      · conv_rhs => rw [← List.map_id (strokeParts cur)]
        apply List.map_congr_left
        intro q hq
        rw [if_neg (fun hpf => by
          have hq2 := (strokeParts_clean cur q hq).2.1
          rw [hq2] at hpf
          exact absurd (pfx_imp_subL _ _ hpf) (by simp [hnosub q hq]))]
        rfl
    rw [hfirst]
    exact darkStrokeStyleStr_fixed _ hclean2 hne2 hany2 hmap2

theorem shapeStyleStr_fixed (ps : List (List Char))
    (hclean : ∀ p ∈ ps, p ≠ [] ∧ pyStripL p = p ∧ ';' ∉ p) (hne : ps ≠ [])
    (hany_s : ps.any (fun p => subL "stroke:".data p) = true)
    (hany_f : ps.any (fun p => subL "fill:".data p) = true) :
    shapeStyleStr ⟨joinSep "; ".data ps⟩ = ⟨joinSep "; ".data ps⟩ := by
  simp only [shapeStyleStr]
  rw [strokeParts_join ps hclean hne, if_pos hany_s, if_pos hany_f]

theorem shapeStyleStr_idem (cur : String) :
    shapeStyleStr (shapeStyleStr cur) = shapeStyleStr cur := by
  have hclean := strokeParts_clean cur
  by_cases hs : (strokeParts cur).any (fun p => subL "stroke:".data p) = true <;>
    by_cases hf : (strokeParts cur).any (fun p => subL "fill:".data p) = true
  · have hne : strokeParts cur ≠ [] := by
      intro h; rw [h] at hs; simp at hs
    have hfirst : shapeStyleStr cur = ⟨joinSep "; ".data (strokeParts cur)⟩ := by
      simp only [shapeStyleStr]
      rw [if_pos hs, if_pos hf]
    rw [hfirst]
    exact shapeStyleStr_fixed _ hclean hne hs hf
  · have hfirst : shapeStyleStr cur =
        ⟨joinSep "; ".data (strokeParts cur ++ ["fill: #f9fafb".data])⟩ := by
      simp only [shapeStyleStr]
      rw [if_pos hs, if_neg hf]
    rw [hfirst]
    apply shapeStyleStr_fixed
    · intro p hp
      rcases List.mem_append.1 hp with hp | hp
      · exact hclean p hp
      · rcases List.mem_cons.1 hp with rfl | hp
        · exact ⟨by decide, by decide, by decide⟩
        · simp at hp
    · simp
    · rw [List.any_eq_true] at hs ⊢
      obtain ⟨q, hq, hsq⟩ := hs
      exact ⟨q, by simp [hq], hsq⟩
    · rw [List.any_eq_true]
      exact ⟨"fill: #f9fafb".data, by simp, by decide⟩
  · have hfirst : shapeStyleStr cur =
        ⟨joinSep "; ".data ((strokeParts cur ++
          ["stroke: #374151".data, "stroke-width: 2px".data]))⟩ := by
      simp only [shapeStyleStr]
      rw [if_neg hs, if_pos hf]
    rw [hfirst]
    apply shapeStyleStr_fixed
    · intro p hp
      rcases List.mem_append.1 hp with hp | hp
      · exact hclean p hp
      · rcases List.mem_cons.1 hp with rfl | hp
        · exact ⟨by decide, by decide, by decide⟩
        · rcases List.mem_cons.1 hp with rfl | hp
          · exact ⟨by decide, by decide, by decide⟩
          · simp at hp
    · simp
    · rw [List.any_eq_true]
      exact ⟨"stroke: #374151".data, by simp, by decide⟩
    · rw [List.any_eq_true] at hf ⊢
      obtain ⟨q, hq, hsq⟩ := hf
      exact ⟨q, by simp [hq], hsq⟩
  · have hfirst : shapeStyleStr cur =
        ⟨joinSep "; ".data ((strokeParts cur ++
          ["stroke: #374151".data, "stroke-width: 2px".data]) ++
          ["fill: #f9fafb".data])⟩ := by
      simp only [shapeStyleStr]
      rw [if_neg hs, if_neg hf]
    rw [hfirst]
    apply shapeStyleStr_fixed
    · intro p hp
      rcases List.mem_append.1 hp with hp | hp
      · rcases List.mem_append.1 hp with hp | hp
        · exact hclean p hp
        · rcases List.mem_cons.1 hp with rfl | hp
          · exact ⟨by decide, by decide, by decide⟩
          · rcases List.mem_cons.1 hp with rfl | hp
            · exact ⟨by decide, by decide, by decide⟩
            · simp at hp
      · rcases List.mem_cons.1 hp with rfl | hp
        · exact ⟨by decide, by decide, by decide⟩
        · simp at hp
    · simp
    · rw [List.any_eq_true]
      exact ⟨"stroke: #374151".data, by simp, by decide⟩
    · rw [List.any_eq_true]
      exact ⟨"fill: #f9fafb".data, by simp, by decide⟩

/-! ### Node-level style idempotence and claim C4 -/

theorem node_getAttr_elem (t : String) (a : Attrs) (cs : List Node) (k : String) :
    (Node.elem t a cs).getAttr k = getA a k := rfl

theorem styleStrOf_set_style (t : String) (a : Attrs) (cs : List Node) (s : String) :
    styleStrOf (.elem t (setA a "style" (.str s)) cs) = s := by
  unfold styleStrOf
  rw [node_getAttr_elem, getA_setA_same]
  rfl

theorem applyDarkStrokeStyle_idem (n : Node) :
    applyDarkStrokeStyle (applyDarkStrokeStyle n) = applyDarkStrokeStyle n := by
  cases n with
  | txt s => rfl
  | elem t a cs =>
      simp only [applyDarkStrokeStyle]
      rw [styleStrOf_set_style, darkStrokeStyleStr_idem, setA_setA_same]

theorem applyShapeStyle_idem (n : Node) :
    applyShapeStyle (applyShapeStyle n) = applyShapeStyle n := by
  cases n with
  | txt s => rfl
  | elem t a cs =>
      simp only [applyShapeStyle]
      rw [styleStrOf_set_style, shapeStyleStr_idem, setA_setA_same]

/-- C4 (amended): the path-stroke pass and the shape pass are idempotent, but
the text style pass is not — re-applying `_apply_dark_text_style` to its own
output duplicates the `font-weight` and `font-family` declarations it added
(only `fill:`-prefixed parts are filtered before re-appending). -/
theorem c4_stroke_shape_idempotent :
    (∀ n, applyDarkStrokeStyle (applyDarkStrokeStyle n) = applyDarkStrokeStyle n) ∧
    (∀ n, applyShapeStyle (applyShapeStyle n) = applyShapeStyle n) :=
  ⟨applyDarkStrokeStyle_idem, applyShapeStyle_idem⟩

theorem c4_counterexample :
    styleStrOf (applyDarkTextStyle (applyDarkTextStyle (Node.elem "text" [] []))) ≠
      styleStrOf (applyDarkTextStyle (Node.elem "text" [] [])) := by
  decide

/-! ### Finalizer idempotence (C7) -/

theorem strDataAppend (s t : String) : (s ++ t).data = s.data ++ t.data := rfl

theorem subL_str_app_r (pat : List Char) (s t : String)
    (h : subL pat t.data = true) : subL pat (s ++ t).data = true := by
  rw [strDataAppend]
  exact subL_append_right _ _ _ h

theorem subL_str_app_l (pat : List Char) (s t : String)
    (h : subL pat s.data = true) : subL pat (s ++ t).data = true := by
  rw [strDataAppend]
  exact subL_append_left _ _ _ h

theorem finalizeTextStyleStr_subs (cur : String) :
    subL "fill:".data (finalizeTextStyleStr cur).data = true ∧
    subL "font-weight:".data (finalizeTextStyleStr cur).data = true ∧
    subL "font-family:".data (finalizeTextStyleStr cur).data = true := by
  simp only [finalizeTextStyleStr]
  generalize hs1 : (if (!subL "fill:".data cur.data) = true
      then cur ++ "; fill: #111827 !important" else cur) = s1
  generalize hs2 : (if (!subL "font-weight:".data s1.data) = true
      then s1 ++ "; font-weight: 500" else s1) = s2
  generalize hs3 : (if (!subL "font-family:".data s2.data) = true
      then s2 ++ "; font-family: -apple-system, BlinkMacSystemFont, \"Segoe UI\", \"Roboto\", sans-serif"
      else s2) = s3
  have hf1 : subL "fill:".data s1.data = true := by
    rw [← hs1]
    split
    · exact subL_str_app_r _ _ _ (by decide)
    · rename_i h; simpa using h
  have hf2 : subL "fill:".data s2.data = true := by
    rw [← hs2]
    split
    · exact subL_str_app_l _ _ _ hf1
    · exact hf1
  have hw2 : subL "font-weight:".data s2.data = true := by
    rw [← hs2]
    split
    · exact subL_str_app_r _ _ _ (by decide)
    · rename_i h; simpa using h
  have hf3 : subL "fill:".data s3.data = true := by
    rw [← hs3]
    split
    · exact subL_str_app_l _ _ _ hf2
    · exact hf2
  have hw3 : subL "font-weight:".data s3.data = true := by
    rw [← hs3]
    split
    · exact subL_str_app_l _ _ _ hw2
    · exact hw2
  have hm3 : subL "font-family:".data s3.data = true := by
    rw [← hs3]
    split
    · exact subL_str_app_r _ _ _ (by decide)
    · rename_i h; simpa using h
  exact ⟨hf3, hw3, hm3⟩

theorem finalizeTextStyleStr_of_subs (s : String)
    (h1 : subL "fill:".data s.data = true)
    (h2 : subL "font-weight:".data s.data = true)
    (h3 : subL "font-family:".data s.data = true) :
    finalizeTextStyleStr s = s := by
  simp only [finalizeTextStyleStr]
  have g1 : ¬ ((!subL "fill:".data s.data) = true) := by rw [h1]; decide
  rw [if_neg g1]
  have g2 : ¬ ((!subL "font-weight:".data s.data) = true) := by rw [h2]; decide
  rw [if_neg g2]
  have g3 : ¬ ((!subL "font-family:".data s.data) = true) := by rw [h3]; decide
  rw [if_neg g3]

theorem finalizeTextStyleStr_idem (cur : String) :
    finalizeTextStyleStr (finalizeTextStyleStr cur) = finalizeTextStyleStr cur := by
  obtain ⟨h1, h2, h3⟩ := finalizeTextStyleStr_subs cur
  exact finalizeTextStyleStr_of_subs _ h1 h2 h3

theorem mem_setA_of_ne (a : Attrs) (k : String) (v : AttrVal)
    (q : String × AttrVal) (hq : q ∈ a) (hk : (q.1 == k) = false) :
    q ∈ setA a k v := by
  unfold setA
  split
  · exact List.mem_map.2 ⟨q, hq, by simp [hk]⟩
  · exact List.mem_append.2 (Or.inl hq)

theorem applyFinalTextStyle_idem (n : Node) :
    applyFinalTextStyle (applyFinalTextStyle n) = applyFinalTextStyle n := by
  cases n with
  | txt s => rfl
  | elem t a cs =>
      simp only [applyFinalTextStyle]
      rw [styleStrOf_set_style, finalizeTextStyleStr_idem]
      have hfill : setA (setA (setA a "fill" (AttrVal.str "#111827")) "style"
          (.str (finalizeTextStyleStr (styleStrOf (.elem t a cs))))) "fill"
          (AttrVal.str "#111827") =
          setA (setA a "fill" (AttrVal.str "#111827")) "style"
          (.str (finalizeTextStyleStr (styleStrOf (.elem t a cs)))) := by
        apply setA_of_key_inv
        · intro q hq hqk
          rcases mem_setA _ _ _ q hq with rfl | hq2
          · simp at hqk
          · exact setA_key_inv _ _ _ q hq2 hqk
        · obtain ⟨q, hq, hqk⟩ := setA_key_mem a "fill" (AttrVal.str "#111827")
          exact ⟨q, mem_setA_of_ne _ _ _ q hq (by simp [hqk]), hqk⟩
      rw [hfill, setA_setA_same]

mutual
theorem foFixN_zero_id (tags : List String) (lit : String) (n : Node)
    (h : foCountN n = 0) : foFixN tags lit 0 n = n := by
  cases n with
  | txt s => rfl
  | elem t a cs =>
      have ht : ¬ t = "foreignobject" := by
        intro he
        unfold foCountN at h
        rw [if_pos he] at h
        omega
      have hcs : foCountL cs = 0 := by
        unfold foCountN at h
        rw [if_neg ht] at h
        simpa using h
      simp only [foFixN, if_neg ht]
      rw [foFixL_zero_id tags lit cs hcs]
      split <;> rfl
theorem foFixL_zero_id (tags : List String) (lit : String) (l : List Node)
    (h : foCountL l = 0) : foFixL tags lit 0 l = l := by
  cases l with
  | nil => rfl
  | cons c cs =>
      have hc : foCountN c = 0 := by
        unfold foCountL at h
        omega
      have hcs : foCountL cs = 0 := by
        unfold foCountL at h
        omega
      simp only [foFixL]
      rw [foFixN_zero_id tags lit c hc, foFixL_zero_id tags lit cs hcs]
end

mutual
theorem mapTagsN_final_count (tags : List String) (n : Node) :
    foCountN (mapTagsN tags applyFinalTextStyle n) = foCountN n := by
  cases n with
  | txt s => rfl
  | elem t a cs =>
      simp only [mapTagsN]
      split
      · simp only [applyFinalTextStyle, foCountN]
        rw [mapTagsL_final_count tags cs]
      · simp only [foCountN]
        rw [mapTagsL_final_count tags cs]
theorem mapTagsL_final_count (tags : List String) (l : List Node) :
    foCountL (mapTagsL tags applyFinalTextStyle l) = foCountL l := by
  cases l with
  | nil => rfl
  | cons c cs =>
      simp only [mapTagsL, foCountL]
      rw [mapTagsN_final_count tags c, mapTagsL_final_count tags cs]
end

mutual
theorem mapTagsN_final_idem (tags : List String) (n : Node) :
    mapTagsN tags applyFinalTextStyle (mapTagsN tags applyFinalTextStyle n) =
      mapTagsN tags applyFinalTextStyle n := by
  cases n with
  | txt s => rfl
  | elem t a cs =>
      by_cases ht : tags.contains t = true
      · have h1 : mapTagsN tags applyFinalTextStyle (.elem t a cs) =
            applyFinalTextStyle (.elem t a (mapTagsL tags applyFinalTextStyle cs)) := by
          simp only [mapTagsN, if_pos ht]
        rw [h1]
        have h2 : applyFinalTextStyle (.elem t a (mapTagsL tags applyFinalTextStyle cs)) =
            .elem t (setA (setA a "fill" (AttrVal.str "#111827")) "style"
              (.str (finalizeTextStyleStr
                (styleStrOf (.elem t a (mapTagsL tags applyFinalTextStyle cs))))))
              (mapTagsL tags applyFinalTextStyle cs) := rfl
        rw [h2]
        have h3 : mapTagsN tags applyFinalTextStyle
            (.elem t (setA (setA a "fill" (AttrVal.str "#111827")) "style"
              (.str (finalizeTextStyleStr
                (styleStrOf (.elem t a (mapTagsL tags applyFinalTextStyle cs))))))
              (mapTagsL tags applyFinalTextStyle cs)) =
            applyFinalTextStyle
              (.elem t (setA (setA a "fill" (AttrVal.str "#111827")) "style"
                (.str (finalizeTextStyleStr
                  (styleStrOf (.elem t a (mapTagsL tags applyFinalTextStyle cs))))))
                (mapTagsL tags applyFinalTextStyle
                  (mapTagsL tags applyFinalTextStyle cs))) := by
          simp only [mapTagsN, if_pos ht]
        rw [h3, mapTagsL_final_idem tags cs, ← h2, applyFinalTextStyle_idem]
      · have h1 : mapTagsN tags applyFinalTextStyle (.elem t a cs) =
            .elem t a (mapTagsL tags applyFinalTextStyle cs) := by
          simp only [mapTagsN, if_neg ht]
        rw [h1]
        have h2 : mapTagsN tags applyFinalTextStyle
            (.elem t a (mapTagsL tags applyFinalTextStyle cs)) =
            .elem t a (mapTagsL tags applyFinalTextStyle
              (mapTagsL tags applyFinalTextStyle cs)) := by
          simp only [mapTagsN, if_neg ht]
        rw [h2, mapTagsL_final_idem tags cs]
theorem mapTagsL_final_idem (tags : List String) (l : List Node) :
    mapTagsL tags applyFinalTextStyle (mapTagsL tags applyFinalTextStyle l) =
      mapTagsL tags applyFinalTextStyle l := by
  cases l with
  | nil => rfl
  | cons c cs =>
      simp only [mapTagsL]
      rw [mapTagsN_final_idem tags c, mapTagsL_final_idem tags cs]
end

/-- C7 (amended): the finalizer pass is idempotent on the `text`/`tspan`
styling, and hence on every tree that retains no `foreignObject`; on a
remaining `foreignObject`'s `div`/`span`/`p` descendants it appends the color
and font-weight declarations anew on every run, so byte-identical style
attributes are not guaranteed there. -/
theorem c7_finalizer_idem_without_fo (doc : List Node) (h : foCountL doc = 0) :
    applyFinalFixesDoc (applyFinalFixesDoc doc) = applyFinalFixesDoc doc := by
  unfold applyFinalFixesDoc
  have h1 : foCountL (mapTagsL ["text", "tspan"] applyFinalTextStyle doc) = 0 := by
    rw [mapTagsL_final_count]
    exact h
  rw [foFixL_zero_id _ _ _ h1, mapTagsL_final_idem,
    foFixL_zero_id _ _ _ h1]

theorem c7_witness :
    foCountL [Node.elem "svg" [] [Node.elem "text" [] [Node.txt "x"]]] = 0 ∧
    applyFinalFixesDoc (applyFinalFixesDoc
      [Node.elem "svg" [] [Node.elem "text" [] [Node.txt "x"]]]) =
    applyFinalFixesDoc [Node.elem "svg" [] [Node.elem "text" [] [Node.txt "x"]]] :=
  ⟨rfl, c7_finalizer_idem_without_fo _ rfl⟩

theorem c7_counterexample :
    serializeDoc (applyFinalFixesDoc (applyFinalFixesDoc
      [Node.elem "foreignobject" [] [Node.elem "div" [] []]])) ≠
    serializeDoc (applyFinalFixesDoc
      [Node.elem "foreignobject" [] [Node.elem "div" [] []]]) := by
  decide

/-! ### Decimal rendering lemmas (C9) -/

theorem digitsVal_append_digit (l : List Char) (c : Char) :
    digitsVal (l ++ [c]) = 10 * digitsVal l + (c.toNat - 48) := by
  unfold digitsVal
  rw [List.foldl_append]
  rfl

theorem digitsVal_natStrAux (fuel : Nat) :
    ∀ n : Nat, n ≤ fuel → digitsVal (natStrAux fuel n) = n := by
  induction fuel with
  | zero =>
      intro n h
      have hz : n = 0 := by omega
      subst hz
      rfl
  | succ fuel ih =>
      intro n h
      by_cases hn : n = 0
      · subst hn; rfl
      · simp only [natStrAux, if_neg hn]
        rw [digitsVal_append_digit]
        rw [ih (n / 10) (by
          have h2 : n / 10 < n := Nat.div_lt_self (Nat.pos_of_ne_zero hn) (by omega)
          omega)]
        have h10 : n % 10 < 10 := Nat.mod_lt _ (by norm_num)
        have hd : ∀ d, d < 10 → (Nat.digitChar d).toNat - 48 = d := by decide
        rw [hd _ h10]
        omega

theorem digitsVal_natStr (n : Nat) : digitsVal (natStr n).data = n := by
  unfold natStr
  split
  · rename_i h; subst h; decide
  · rename_i h
    show digitsVal (natStrAux (n + 1) n) = n
    exact digitsVal_natStrAux (n + 1) n (by omega)

theorem natStr_inj (a b : Nat) (h : natStr a = natStr b) : a = b := by
  have ha := digitsVal_natStr a
  have hb := digitsVal_natStr b
  rw [h] at ha
  omega

theorem pfxL_refl (l : List Char) : pfxL l l = true := by
  induction l with
  | nil => rfl
  | cons c cs ih => simp [pfxL, ih]

theorem pfxL_self_append (s t : List Char) : pfxL s (s ++ t) = true :=
  pfxL_append s s t (pfxL_refl s)

theorem str_append_cancel (s a b : String) (h : s ++ a = s ++ b) : a = b := by
  have hd := congrArg String.data h
  rw [strDataAppend, strDataAppend] at hd
  have hc := List.append_cancel_left hd
  cases a
  cases b
  simp only at hc
  rw [hc]

/-! ### Grouping partition lemmas (C9) -/

theorem setAt_fresh (gs : List (String × List Nat)) (k : String) (v : List Nat)
    (h : gs.find? (fun p => p.1 == k) = none) :
    setAt gs k v = gs ++ [(k, v)] := by
  unfold setAt
  rw [if_neg (by simp [h])]

theorem appendAt_fresh (gs : List (String × List Nat)) (k : String) (i : Nat)
    (h : gs.find? (fun p => p.1 == k) = none) :
    appendAt gs k i = gs ++ [(k, [i])] := by
  unfold appendAt
  rw [if_neg (by simp [h])]

theorem appendAt_exists_keys (gs : List (String × List Nat)) (k : String) (i : Nat)
    (hf : (gs.find? (fun p => p.1 == k)).isSome = true) :
    (appendAt gs k i).map Prod.fst = gs.map Prod.fst := by
  unfold appendAt
  rw [if_pos hf, List.map_map]
  apply List.map_congr_left
  intro p _
  by_cases hp : p.1 = k
  · simp [hp]
  · simp [hp]

theorem appendAt_exists_flatten (gs : List (String × List Nat)) (k : String)
    (i : Nat) (hf : (gs.find? (fun p => p.1 == k)).isSome = true)
    (hnodup : (gs.map Prod.fst).Nodup) :
    ((appendAt gs k i).map Prod.snd).flatten.Perm
      ((gs.map Prod.snd).flatten ++ [i]) := by
  unfold appendAt
  rw [if_pos hf]
  induction gs with
  | nil => simp at hf
  | cons p ps ih =>
      by_cases hp : (p.1 == k) = true
      · have hpk : p.1 = k := by simpa using hp
        have hnot : ∀ q ∈ ps, (q.1 == k) = false := by
          intro q hq
          have hni := (List.nodup_cons.1 hnodup).1
          simp only [beq_eq_false_iff_ne]
          intro he
          apply hni
          rw [hpk, ← he]
          exact List.mem_map.2 ⟨q, hq, rfl⟩
        have hmap : ps.map (fun q => if q.1 == k then (q.1, q.2 ++ [i]) else q) = ps := by
          conv_rhs => rw [← List.map_id ps]
          apply List.map_congr_left
          intro q hq
          rw [if_neg (by simp [hnot q hq])]
          rfl
        simp only [List.map_cons, if_pos hp, hmap, List.flatten_cons]
        have e1 : (p.2 ++ [i]) ++ (ps.map Prod.snd).flatten =
            p.2 ++ ([i] ++ (ps.map Prod.snd).flatten) := by rw [List.append_assoc]
        have e2 : (p.2 ++ (ps.map Prod.snd).flatten) ++ [i] =
            p.2 ++ ((ps.map Prod.snd).flatten ++ [i]) := by rw [List.append_assoc]
        rw [e1, e2]
        exact List.Perm.append_left _ List.perm_append_comm
      · have hp' : (p.1 == k) = false := by simpa using hp
        have hf' : (ps.find? (fun p => p.1 == k)).isSome = true := by
          simp only [List.find?, hp'] at hf
          exact hf
        have ih' := ih hf' (List.nodup_cons.1 hnodup).2
        simp only [List.map_cons, if_neg (by simp [hp] : ¬ (p.1 == k) = true),
          List.flatten_cons]
        have e2 : (p.2 ++ (ps.map Prod.snd).flatten) ++ [i] =
            p.2 ++ ((ps.map Prod.snd).flatten ++ [i]) := by rw [List.append_assoc]
        rw [e2]
        exact List.Perm.append_left _ ih'

theorem appendAt_exists_length (gs : List (String × List Nat)) (k : String)
    (i : Nat) (hf : (gs.find? (fun p => p.1 == k)).isSome = true) :
    (appendAt gs k i).length = gs.length := by
  unfold appendAt
  rw [if_pos hf, List.length_map]

theorem groupFOsAux_cons (isCD : Bool) (fi : FOInfo) (rest : List FOInfo)
    (i : Nat) (gs : List (String × List Nat)) :
    groupFOsAux isCD (fi :: rest) i gs =
      groupFOsAux isCD rest (i + 1)
        (match (if isCD then findNodeParent fi.ancs else none) with
         | some p => appendAt gs (dataIdOf p) i
         | none => setAt gs ("individual_" ++ natStr gs.length) [i]) := by
  conv_lhs => unfold groupFOsAux

theorem groupFOsAux_cons_none (isCD : Bool) (fi : FOInfo) (rest : List FOInfo)
    (i : Nat) (gs : List (String × List Nat))
    (hnp : (if isCD then findNodeParent fi.ancs else none) = none) :
    groupFOsAux isCD (fi :: rest) i gs =
      groupFOsAux isCD rest (i + 1)
        (setAt gs ("individual_" ++ natStr gs.length) [i]) := by
  rw [groupFOsAux_cons, hnp]

theorem groupFOsAux_cons_some (isCD : Bool) (fi : FOInfo) (rest : List FOInfo)
    (i : Nat) (gs : List (String × List Nat)) (p : Node)
    (hnp : (if isCD then findNodeParent fi.ancs else none) = some p) :
    groupFOsAux isCD (fi :: rest) i gs =
      groupFOsAux isCD rest (i + 1) (appendAt gs (dataIdOf p) i) := by
  rw [groupFOsAux_cons, hnp]

theorem groupFOsAux_perm (isCD : Bool) (fos : List FOInfo) :
    ∀ (i : Nat) (gs : List (String × List Nat)),
    (∀ fi ∈ fos, ∀ p ∈ (findNodeParent fi.ancs).toList,
        pfxL "individual_".data (dataIdOf p).data = false) →
    ((gs.map Prod.snd).flatten).Perm (List.range i) →
    (gs.map Prod.fst).Nodup →
    (∀ s ∈ gs.map Prod.fst, pfxL "individual_".data s.data = true →
        ∃ j, j < gs.length ∧ s = "individual_" ++ natStr j) →
    (((groupFOsAux isCD fos i gs).map Prod.snd).flatten).Perm
      (List.range (i + fos.length)) := by
  induction fos with
  | nil =>
      intro i gs _ hperm _ _
      simpa using hperm
  | cons fi rest ih =>
      intro i gs hdata hperm hnodup hindiv
      have hdata' : ∀ f ∈ rest, ∀ p ∈ (findNodeParent f.ancs).toList,
          pfxL "individual_".data (dataIdOf p).data = false := by
        intro f hf p hp
        exact hdata f (by simp [hf]) p hp
      have hlen : i + (fi :: rest).length = (i + 1) + rest.length := by
        show i + (rest.length + 1) = (i + 1) + rest.length
        omega
      rw [hlen]
      cases hnp : (if isCD then findNodeParent fi.ancs else none) with
      | none =>
          rw [groupFOsAux_cons_none isCD fi rest i gs hnp]
          have hnotmem : ("individual_" ++ natStr gs.length) ∉ gs.map Prod.fst := by
            intro hmem
            obtain ⟨j, hj, he⟩ := hindiv _ hmem (by
              rw [strDataAppend]
              exact pfxL_self_append _ _)
            have := natStr_inj _ _ (str_append_cancel _ _ _ he)
            omega
          have hkey : gs.find?
              (fun q => q.1 == "individual_" ++ natStr gs.length) = none := by
            rw [List.find?_eq_none]
            intro q hq he
            have he' : q.1 = "individual_" ++ natStr gs.length := by simpa using he
            exact hnotmem (he' ▸ List.mem_map.2 ⟨q, hq, rfl⟩)
          rw [setAt_fresh _ _ _ hkey]
          apply ih (i + 1) _ hdata'
          · rw [List.map_append, List.flatten_append, List.range_succ]
            simpa using hperm.append_right [i]
          · rw [List.map_append, List.nodup_append]
            exact ⟨hnodup, by simp, by
              intro a ha hb
              simp at hb
              subst hb
              exact hnotmem ha⟩
          · intro s hs hpfx
            rw [List.map_append, List.mem_append] at hs
            rcases hs with hs | hs
            · obtain ⟨j, hj, he⟩ := hindiv s hs hpfx
              exact ⟨j, by simp [List.length_append]; omega, he⟩
            · refine ⟨gs.length, by simp [List.length_append], ?_⟩
              simpa using hs
      | some p =>
          rw [groupFOsAux_cons_some isCD fi rest i gs p hnp]
          have hfnp : findNodeParent fi.ancs = some p := by
            cases hisCD : isCD with
            | false => rw [hisCD] at hnp; simp at hnp
            | true => rw [hisCD] at hnp; simpa using hnp
          have hpfx : pfxL "individual_".data (dataIdOf p).data = false :=
            hdata fi (by simp) p (by rw [hfnp]; simp)
          by_cases hf : (gs.find? (fun q => q.1 == dataIdOf p)).isSome = true
          · apply ih (i + 1) _ hdata'
            · refine (appendAt_exists_flatten gs _ i hf hnodup).trans ?_
              rw [List.range_succ]
              exact hperm.append_right [i]
            · rw [appendAt_exists_keys gs _ i hf]
              exact hnodup
            · intro s hs hpfx'
              rw [appendAt_exists_keys gs _ i hf] at hs
              obtain ⟨j, hj, he⟩ := hindiv s hs hpfx'
              rw [appendAt_exists_length gs _ i hf]
              exact ⟨j, hj, he⟩
          · have hkey : gs.find? (fun q => q.1 == dataIdOf p) = none := by
              rw [← Option.not_isSome_iff_eq_none]
              simpa using hf
            rw [appendAt_fresh _ _ _ hkey]
            have hnotmem : dataIdOf p ∉ gs.map Prod.fst := by
              intro hmem
              rw [List.find?_eq_none] at hkey
              obtain ⟨q, hq, hqe⟩ := List.mem_map.1 hmem
              exact hkey q hq (by simp [hqe])
            apply ih (i + 1) _ hdata'
            · rw [List.map_append, List.flatten_append, List.range_succ]
              simpa using hperm.append_right [i]
            · rw [List.map_append, List.nodup_append]
              exact ⟨hnodup, by simp, by
                intro a ha hb
                simp at hb
                subst hb
                exact hnotmem ha⟩
            · intro s hs hpfx'
              rw [List.map_append, List.mem_append] at hs
              rcases hs with hs | hs
              · obtain ⟨j, hj, he⟩ := hindiv s hs hpfx'
                exact ⟨j, by simp [List.length_append]; omega, he⟩
              · have hsk : s = dataIdOf p := by simpa using hs
                rw [hsk] at hpfx'
                rw [hpfx] at hpfx'
                simp at hpfx'

/-- C9 (amended): the grouping step partitions the `foreignObject` nodes —
each is assigned to exactly one group and none is lost — provided no
class-diagram node's `data-id` starts with `"individual_"`; when a `data-id`
collides with a later-synthesized `individual_N` key, the dictionary
assignment overwrites the earlier group and its members are never processed
(they stay in the tree for the finalizer). -/
theorem c9_grouping_partition (isCD : Bool) (fos : List FOInfo)
    (h : ∀ fi ∈ fos, ∀ p ∈ (findNodeParent fi.ancs).toList,
        pfxL "individual_".data (dataIdOf p).data = false) :
    (((groupFOs isCD fos).map Prod.snd).flatten).Perm (List.range fos.length) := by
  have h0 := groupFOsAux_perm isCD fos 0 [] h (by simp) (by simp) (by simp)
  simpa using h0

theorem c9_witness :
    (((groupFOs true
      [⟨Node.elem "foreignobject" [] [],
        [Node.elem "g" [("class", AttrVal.str "node default"),
          ("data-id", AttrVal.str "c1")] []]⟩,
       ⟨Node.elem "foreignobject" [] [],
        [Node.elem "svg" [] []]⟩]).map Prod.snd).flatten).Perm
      (List.range 2) :=
  c9_grouping_partition true _ (by decide)

theorem c9_counterexample :
    (collectFOsDoc collisionDoc).length = 2 ∧
    isClassDiagramOf collisionDoc = true ∧
    groupFOs true (collectFOsDoc collisionDoc) = [("individual_1", [1])] ∧
    foCountL (processSvgDoc collisionDoc) = 1 :=
  ⟨rfl, rfl, rfl, rfl⟩

mutual
/-- A subtree with no `svg` element is untouched by the style pass. -/
theorem setSvgStyle_none_N (n : Node) (h : firstTagN "svg" n = none) :
    setSvgStyleN n = (n, false) := by
  cases n with
  | txt s => rfl
  | elem t a cs =>
      by_cases ht : t = "svg"
      · rw [firstTagN, if_pos ht] at h
        exact absurd h (by simp)
      · rw [firstTagN, if_neg ht] at h
        rw [setSvgStyleN, if_neg ht, setSvgStyle_none_L cs h]
theorem setSvgStyle_none_L (l : List Node) (h : firstTagL "svg" l = none) :
    setSvgStyleL l = (l, false) := by
  cases l with
  | nil => rfl
  | cons c rest =>
      cases hc : firstTagN "svg" c with
      | some r => rw [firstTagL, hc] at h; exact absurd h (by simp)
      | none =>
          rw [firstTagL, hc] at h
          simp only [setSvgStyleL, setSvgStyle_none_N c hc,
            setSvgStyle_none_L rest h]
          simp
end

mutual
/-- The first `svg` of the style pass's output is the first `svg` of the
input with its `style` attribute overwritten, and the found flag is set. -/
theorem setSvgStyle_some_N (n : Node) (a : Attrs) (cs : List Node)
    (h : firstTagN "svg" n = some (Node.elem "svg" a cs)) :
    firstTagN "svg" (setSvgStyleN n).1
      = some (Node.elem "svg" (setA a "style" (AttrVal.str "background: white;")) cs)
    ∧ (setSvgStyleN n).2 = true := by
  cases n with
  | txt s => exact absurd h (by rw [firstTagN]; simp)
  | elem t b ch =>
      by_cases ht : t = "svg"
      · subst ht
        rw [firstTagN, if_pos rfl] at h
        rw [Option.some_inj] at h
        cases h
        simp [setSvgStyleN, firstTagN]
      · rw [firstTagN, if_neg ht] at h
        have ih := setSvgStyle_some_L ch a cs h
        simp only [setSvgStyleN, if_neg ht]
        exact ⟨by rw [firstTagN, if_neg ht]; exact ih.1, ih.2⟩
theorem setSvgStyle_some_L (l : List Node) (a : Attrs) (cs : List Node)
    (h : firstTagL "svg" l = some (Node.elem "svg" a cs)) :
    firstTagL "svg" (setSvgStyleL l).1
      = some (Node.elem "svg" (setA a "style" (AttrVal.str "background: white;")) cs)
    ∧ (setSvgStyleL l).2 = true := by
  cases l with
  | nil => exact absurd h (by rw [firstTagL]; simp)
  | cons c rest =>
      cases hc : firstTagN "svg" c with
      | some r =>
          have hr : r = Node.elem "svg" a cs := by
            rw [firstTagL, hc] at h
            exact Option.some_inj.1 h
          subst hr
          have ih := setSvgStyle_some_N c a cs hc
          simp only [setSvgStyleL, ih.2, if_true]
          exact ⟨by rw [firstTagL, ih.1], by simp⟩
      | none =>
          rw [firstTagL, hc] at h
          have ih := setSvgStyle_some_L rest a cs h
          simp only [setSvgStyleL, setSvgStyle_none_N c hc, Bool.false_eq_true,
            if_false]
          exact ⟨by rw [firstTagL, hc]; exact ih.1, ih.2⟩
end

/-- C10: whenever the document has an `svg` element, the style pass of
`_process_svg_for_pdf` (lines 221–223) rewrites the first (root) `svg`
element's `style` attribute to exactly `background: white;`, discarding any
previous style value, and every other attribute of that element keeps its
old value. -/
theorem c10_svg_style_frame (doc : List Node) (a : Attrs) (cs : List Node)
    (h : findFirstTag "svg" doc = some (Node.elem "svg" a cs)) :
    findFirstTag "svg" (setFirstSvgStyle doc)
      = some (Node.elem "svg" (setA a "style" (AttrVal.str "background: white;")) cs)
    ∧ getA (setA a "style" (AttrVal.str "background: white;")) "style"
      = some (AttrVal.str "background: white;")
    ∧ ∀ k, k ≠ "style" →
      getA (setA a "style" (AttrVal.str "background: white;")) k = getA a k :=
  ⟨(setSvgStyle_some_L doc a cs h).1, getA_setA_same a "style" _,
   fun k hk => getA_setA_ne a "style" k _ hk⟩

theorem c10_witness :
    findFirstTag "svg" (setFirstSvgStyle
        [Node.elem "svg" [("width", AttrVal.str "10"), ("style", AttrVal.str "red")] []])
      = some (Node.elem "svg"
          (setA [("width", AttrVal.str "10"), ("style", AttrVal.str "red")]
            "style" (AttrVal.str "background: white;")) [])
    ∧ getA (setA [("width", AttrVal.str "10"), ("style", AttrVal.str "red")]
        "style" (AttrVal.str "background: white;")) "style"
      = some (AttrVal.str "background: white;")
    ∧ getA (setA [("width", AttrVal.str "10"), ("style", AttrVal.str "red")]
        "style" (AttrVal.str "background: white;")) "width"
      = some (AttrVal.str "10") :=
  have h := c10_svg_style_frame
    [Node.elem "svg" [("width", AttrVal.str "10"), ("style", AttrVal.str "red")] []]
    [("width", AttrVal.str "10"), ("style", AttrVal.str "red")] [] rfl
  ⟨h.1, h.2.1, by rw [h.2.2 "width" (by decide)]; rfl⟩
